import Mathlib

/-
  A shallow embedding of the pipepy lazy process-composition engine
  (src/pipepy/pipepy.py) and proofs about its operations.

  Modelling conventions:
  * A command descriptor (class PipePy) is a `Desc`: a linear chain of
    `Node`s linked through the `_input` field (`.piped n up` models a
    descriptor whose `_input` is another PipePy object; `.base n` models a
    descriptor whose `_input` is None, a data literal/iterable, or a file).
  * The process-wide globals (ALWAYS_RAISE, ALWAYS_STREAM) and the
    filesystem glob are an `Env`; the operating system's behaviour for a
    spawned process (exit code, produced output, running time) is an `OS`
    oracle keyed by pid; the `_JOBS` registry and the pid supply are a
    `World` threaded through the stateful operations.
  * Python exceptions are returned as `Option Err` next to the updated
    state (an exception leaves already-performed field mutations in place,
    exactly as in Python, so state is returned alongside the error).
-/

namespace PipePy

/-- A Python keyword-argument value as `_convert_args` discriminates them:
the literals True/False versus anything else (rendered into the flag). -/
inductive Val where
  | bool (b : Bool)
  | str (s : String)
deriving Repr, DecidableEq

/-- `key.replace("_", "-")` from `_convert_args`: since the pattern is a
single character, the replacement is the character-wise map. -/
def hyphenate (k : String) : String :=
  String.mk (k.data.map (fun c => if c = '_' then '-' else c))

/-- The positional-argument loop of `PipePy._convert_args`: each token is
glob-expanded (`glob(arg, recursive=True)` modelled by the function `g`);
a non-empty expansion replaces the token, an empty one keeps the literal. -/
def convertPositional (g : String → List String) : List String → List String
  | [] => []
  | a :: rest =>
      (match g a with
       | [] => [a]
       | l => l) ++ convertPositional g rest

/-- The keyword-argument loop of `PipePy._convert_args`. -/
def convertKw : List (String × Val) → List String
  | [] => []
  | (k, v) :: rest =>
      let k := hyphenate k
      (match v with
       | .bool true => if k.length == 1 then ["-" ++ k] else ["--" ++ k]
       | .bool false => ["--no-" ++ k]
       | .str s => if k.length == 1 then ["-" ++ k, s] else ["--" ++ k ++ "=" ++ s])
      ++ convertKw rest

/-- `PipePy._convert_args(args, kwargs)`: positional tokens (glob-expanded)
followed by converted keyword options. -/
def convert_args (g : String → List String) (args : List String)
    (kwargs : List (String × Val)) : List String :=
  convertPositional g args ++ convertKw kwargs

/-- The non-descriptor part of a `_input` field: None, a text/bytes
literal or generic iterable of chunks, or a `_File` reference. -/
inductive DataSrc where
  | noData
  | data (s : String)
  | file (name : String)
deriving Repr, DecidableEq

/-- One PipePy object's own fields: the configuration set in `__init__`
plus the runtime-only fields (`_process`, `_input_consumed`,
`_returncode`, `_stdout`, `_stderr`).  `stdoutPiped`/`stderrPiped` record
whether the corresponding stream was opened as a capture pipe at spawn
time (in Python this lives inside the Popen object). -/
structure Node where
  args : List String
  lazy : Bool
  dataInput : DataSrc
  streamStdout : Option Bool
  streamStderr : Option Bool
  stream : Option Bool
  text : Bool
  encoding : String
  raiseFlag : Option Bool
  process : Option Nat
  stdoutPiped : Bool
  stderrPiped : Bool
  inputConsumed : Bool
  returncode : Option Int
  stdout : Option String
  stderr : Option String
deriving Repr, DecidableEq

/-- A descriptor together with its upstream `_input` chain. -/
inductive Desc where
  | base (n : Node)
  | piped (n : Node) (up : Desc)
deriving Repr, DecidableEq

def Desc.head : Desc → Node
  | .base n => n
  | .piped n _ => n

def Desc.setHead : Desc → Node → Desc
  | .base _, m => .base m
  | .piped _ up, m => .piped m up

def Desc.nodes : Desc → List Node
  | .base n => [n]
  | .piped n up => n :: up.nodes

def Desc.depth : Desc → Nat
  | .base _ => 0
  | .piped _ up => up.depth + 1

/-- Fresh descriptor fields as `__init__` sets them (runtime fields reset). -/
def freshNode (args : List String) (lazy : Bool) (dataInput : DataSrc)
    (sso sse ss : Option Bool) (text : Bool) (enc : String)
    (rf : Option Bool) : Node :=
  { args := args, lazy := lazy, dataInput := dataInput,
    streamStdout := sso, streamStderr := sse, stream := ss,
    text := text, encoding := enc, raiseFlag := rf,
    process := Option.none, stdoutPiped := false, stderrPiped := false,
    inputConsumed := false, returncode := Option.none,
    stdout := Option.none, stderr := Option.none }

/-- A value for the `_input` parameter of `__init__`/`__call__`. -/
inductive InputVal where
  | noInput
  | desc (d : Desc)
  | data (s : String)
  | file (name : String)
deriving Repr, DecidableEq

/-- The `_input` field of a descriptor, read back as an `InputVal`. -/
def Desc.inputVal : Desc → InputVal
  | .base n =>
      match n.dataInput with
      | .noData => .noInput
      | .data s => .data s
      | .file f => .file f
  | .piped _ up => .desc up

/-- Build a descriptor from converted args, flags and an input value,
as the constructor does. -/
def mkDesc (args : List String) (lazy : Bool) (input : InputVal)
    (sso sse ss : Option Bool) (text : Bool) (enc : String)
    (rf : Option Bool) : Desc :=
  match input with
  | .desc up => .piped (freshNode args lazy .noData sso sse ss text enc rf) up
  | .noInput => .base (freshNode args lazy .noData sso sse ss text enc rf)
  | .data s => .base (freshNode args lazy (.data s) sso sse ss text enc rf)
  | .file f => .base (freshNode args lazy (.file f) sso sse ss text enc rf)

/-- Process-wide configuration: the ALWAYS_RAISE / ALWAYS_STREAM globals
and the filesystem's recursive glob. -/
structure Env where
  alwaysRaise : Bool
  alwaysStream : Bool
  glob : String → List String

/-- Oracle for the behaviour of spawned processes, keyed by pid:
exit code, data produced on each stream, and running time (used to decide
whether a bounded `communicate` raises TimeoutExpired). -/
structure OS where
  exitCode : Nat → Int
  outData : Nat → String
  errData : Nat → String
  duration : Nat → Nat

/-- Mutable process-wide state: the pid supply, the `_JOBS` registry
(pid ↦ the registered descriptor's argv) and the set of pids whose
processes have already terminated and been collected. -/
structure World where
  nextPid : Nat
  jobs : List (Nat × List String)
  finished : List Nat
deriving Repr, DecidableEq

def World.jobPids (w : World) : List Nat := w.jobs.map Prod.fst

/-- Registry well-formedness: every registered pid was issued by the
pid supply. -/
def World.wf (w : World) : Prop := ∀ p ∈ w.jobPids, p < w.nextPid

/-- Python exceptions that the modelled operations can raise. -/
inductive Err where
  | timeoutExpired
  | assertionError
  | pipePyError (returncode : Int) (stdout stderr : Option String)
  | typeError
  | outOfFuel
deriving Repr, DecidableEq

/-- The stdout capture decision of `_start_background_job`: a pipe is used
(True) unless the effective stream flag says to pass the stream through. -/
def stdoutPipedOf (env : Env) (n : Node) : Bool :=
  match n.streamStdout, n.stream with
  | Option.none, Option.none => !env.alwaysStream
  | Option.none, some s => !s
  | some s, _ => !s

/-- The stderr capture decision of `_start_background_job`. -/
def stderrPipedOf (env : Env) (n : Node) : Bool :=
  match n.streamStderr, n.stream with
  | Option.none, Option.none => !env.alwaysStream
  | Option.none, some s => !s
  | some s, _ => !s

/-- `Popen(...)` followed by `_JOBS[self._process.pid] = self`: draw a
fresh pid, record the capture decisions, register the job. -/
def spawnNode (env : Env) (n : Node) (w : World) : Node × World :=
  let pid := w.nextPid
  ({ n with process := some pid,
            stdoutPiped := stdoutPipedOf env n,
            stderrPiped := stderrPipedOf env n },
   { nextPid := pid + 1,
     jobs := w.jobs.filter (fun e => e.1 ≠ pid) ++ [(pid, n.args)],
     finished := w.finished })

/-- `PipePy._start_background_job(stdin_to_pipe)`: abort if the process is
already started and the descriptor is lazy; if the input is a not yet
evaluated PipePy, start it first (recursively) and wire its stdout;
finally spawn this descriptor's own process and register it. -/
def start_background_job (env : Env) (stdinToPipe : Bool) :
    Desc → World → Desc × World
  | .base n, w =>
      if n.process.isSome && n.lazy then (.base n, w)
      else
        let r := spawnNode env n w
        (.base r.1, r.2)
  | .piped n up, w =>
      if n.process.isSome && n.lazy then (.piped n up, w)
      else
        if up.head.returncode.isSome then
          -- already-evaluated upstream: our stdin is a plain pipe,
          -- the captured output will be written during the feed step
          let r := spawnNode env n w
          (.piped r.1 up, r.2)
        else
          let ru := start_background_job env stdinToPipe up w
          let r := spawnNode env n ru.2
          (.piped r.1 ru.1, r.2)

/-- Fuel-indexed `PipePy._feed_input`: abort if input was already consumed
and the descriptor is lazy; for an already-evaluated upstream descriptor
write its captured output, otherwise start and feed the upstream
recursively; literal/iterable/file inputs are written and closed.  The
fuel only bounds the recursion into the (length-preserving) upstream
chain and is never exhausted when it starts at the chain depth. -/
def feedF (env : Env) : Nat → Desc → World → Desc × World
  | _, .base n, w =>
      if n.inputConsumed && n.lazy then (.base n, w)
      else (.base { n with inputConsumed := true }, w)
  | 0, .piped n up, w => (.piped n up, w)
  | fuel + 1, .piped n up, w =>
      if n.inputConsumed && n.lazy then (.piped n up, w)
      else
        if up.head.returncode.isSome then
          (.piped { n with inputConsumed := true } up, w)
        else
          let ru := start_background_job env false up w
          let ru2 := feedF env fuel ru.1 ru.2
          (.piped { n with inputConsumed := true } ru2.1, ru2.2)

/-- `PipePy._feed_input`. -/
def feed_input (env : Env) (d : Desc) (w : World) : Desc × World :=
  feedF env d.depth d w

/-- Whether `communicate(timeout=...)` raises TimeoutExpired: only a
bounded timeout can, and only when the process is still running past the
bound (a process that already terminated never times out). -/
def timesOut (os : OS) (w : World) (pid : Nat) : Option Nat → Bool
  | Option.none => false
  | some t => !(w.finished.contains pid) && decide (t < os.duration pid)

/-- `communicate()` + `self._process.wait()`: record the return code and
the captured streams (None for a stream that was passed through). -/
def Node.reap (os : OS) (n : Node) (pid : Nat) : Node :=
  { n with returncode := some (os.exitCode pid),
           stdout := if n.stdoutPiped then some (os.outData pid) else Option.none,
           stderr := if n.stderrPiped then some (os.errData pid) else Option.none }

/-- The effect of a successful `communicate` on the process table:
`del _JOBS[self._process.pid]` (a missing key is ignored) and the
process is now terminated and collected. -/
def deregister (w : World) (pid : Nat) : World :=
  { nextPid := w.nextPid,
    jobs := w.jobs.filter (fun e => e.1 ≠ pid),
    finished := pid :: w.finished }

/-- The final raise-policy step of `wait`: on a pending exception just
re-raise it, otherwise raise PipePyError when the effective raise policy
(`self._raise`, falling back to ALWAYS_RAISE) is on and the recorded
return code is non-zero. -/
def waitFinish (env : Env) (r : Desc × World × Option Err) :
    Desc × World × Option Err :=
  match r with
  | (d2, w2, some e) => (d2, w2, some e)
  | (d2, w2, Option.none) =>
      if (d2.head.raiseFlag.getD env.alwaysRaise) &&
          !((d2.head.returncode.getD 0) == 0) then
        (d2, w2, some (.pipePyError (d2.head.returncode.getD 0)
          d2.head.stdout d2.head.stderr))
      else (d2, w2, Option.none)

/-- Fuel-indexed `PipePy.wait` (mode `true`) together with its trailing
loop over the upstream chain (mode `false`).

Mode `true` is the body of `wait(timeout)`: assert the process was
started; `communicate` (a bounded timeout that expires re-raises
TimeoutExpired with no state change at all); record results; deregister
from `_JOBS`; run the upstream loop; finally apply the effective raise
policy (`self._raise` falling back to ALWAYS_RAISE).  In Python the raise
step goes through the `returncode` property whose re-evaluation is a
no-op here because the return code was just recorded and recursion is
guarded by laziness.

Mode `false` is the loop `job = self; while job._input is a PipePy:
job = job._input; job.wait(timeout)`: it fully waits the first upstream,
then continues the walk on the (updated) rest of the chain.  The fuel
strictly decreases on every recursive call so the function reduces by
computation; it is never exhausted when it starts at twice the chain
depth plus one, because waiting preserves the chain's length. -/
def waitAux (env : Env) (os : OS) :
    Nat → Bool → Option Nat → Desc → World → Desc × World × Option Err
  | 0, true, _, d, w => (d, w, some .outOfFuel)
  | fuel + 1, true, t, d, w =>
      match d.head.process with
      | Option.none => (d, w, some .assertionError)
      | some pid =>
          if timesOut os w pid t then (d, w, some .timeoutExpired)
          else
            waitFinish env (waitAux env os fuel false t
              (d.setHead (Node.reap os d.head pid)) (deregister w pid))
  | _, false, _, .base n, w => (.base n, w, Option.none)
  | 0, false, _, .piped n up, w => (.piped n up, w, some .outOfFuel)
  | fuel + 1, false, t, .piped n up, w =>
      match waitAux env os fuel true t up w with
      | (up', w', some e) => (.piped n up', w', some e)
      | (up', w', Option.none) =>
          let r := waitAux env os fuel false t up' w'
          (.piped n r.1, r.2.1, r.2.2)

/-- `PipePy.wait(timeout)` (the fuel is an upper bound on the recursion
depth, sufficient for the whole chain; see `waitAux`). -/
def wait (env : Env) (os : OS) (t : Option Nat) (d : Desc) (w : World) :
    Desc × World × Option Err :=
  waitAux env os (2 * d.depth + 1) true t d w

/-- `PipePy._evaluate`: a lazy descriptor whose return code is already
recorded aborts; otherwise start, feed and wait (with no timeout). -/
def evaluate (env : Env) (os : OS) (d : Desc) (w : World) :
    Desc × World × Option Err :=
  if d.head.returncode.isSome && d.head.lazy then (d, w, Option.none)
  else
    let r1 := start_background_job env false d w
    let r2 := feed_input env r1.1 r1.2
    wait env os Option.none r2.1 r2.2

/-- The `returncode` property: evaluate, assert the field is set, return. -/
def returncodeProp (env : Env) (os : OS) (d : Desc) (w : World) :
    Option Int × Desc × World × Option Err :=
  match evaluate env os d w with
  | (d', w', some e) => (Option.none, d', w', some e)
  | (d', w', Option.none) =>
      match d'.head.returncode with
      | some rc => (some rc, d', w', Option.none)
      | Option.none => (Option.none, d', w', some .assertionError)

/-- The `stdout` property: evaluate, assert a captured value, return it. -/
def stdoutProp (env : Env) (os : OS) (d : Desc) (w : World) :
    Option String × Desc × World × Option Err :=
  match evaluate env os d w with
  | (d', w', some e) => (Option.none, d', w', some e)
  | (d', w', Option.none) =>
      match d'.head.stdout with
      | some s => (some s, d', w', Option.none)
      | Option.none => (Option.none, d', w', some .assertionError)

/-- The `stderr` property: evaluate, assert a captured value, return it. -/
def stderrProp (env : Env) (os : OS) (d : Desc) (w : World) :
    Option String × Desc × World × Option Err :=
  match evaluate env os d w with
  | (d', w', some e) => (Option.none, d', w', some e)
  | (d', w', Option.none) =>
      match d'.head.stderr with
      | some s => (some s, d', w', Option.none)
      | Option.none => (Option.none, d', w', some .assertionError)

/-- `send_signal`/`terminate`/`kill` forwarding: fails fast with a
TypeError when no background process exists. -/
def terminateOp (d : Desc) : Except Err Unit :=
  match d.head.process with
  | Option.none => .error .typeError
  | some _ => .ok ()

/-- The keyword override parameters of `__call__` (each `none` means the
parameter was not supplied, so the parent's value is carried forward). -/
structure Overrides where
  input : Option InputVal := Option.none
  streamStdout : Option Bool := Option.none
  streamStderr : Option Bool := Option.none
  stream : Option Bool := Option.none
  text : Option Bool := Option.none
  encoding : Option String := Option.none
  raiseF : Option Bool := Option.none
deriving Repr, DecidableEq

/-- The `force` condition of `__call__`: no positional tokens, no keyword
options, every override parameter left unset. -/
def Overrides.unset (o : Overrides) : Prop :=
  o.input = Option.none ∧ o.streamStdout = Option.none ∧
  o.streamStderr = Option.none ∧ o.stream = Option.none ∧
  o.text = Option.none ∧ o.encoding = Option.none ∧ o.raiseF = Option.none

instance (o : Overrides) : Decidable o.unset := by
  unfold Overrides.unset; infer_instance

/-- `PipePy.__call__`: a copy with the parent's argv extended by the new
tokens/options, unset overrides carried forward from the parent, always
lazy; with no arguments and no overrides at all, the copy is fully
evaluated before being returned. -/
def callOp (env : Env) (os : OS) (args : List String)
    (kwargs : List (String × Val)) (o : Overrides) (d : Desc) (w : World) :
    Desc × World × Option Err :=
  let force := args.isEmpty && kwargs.isEmpty && decide o.unset
  let actualArgs := d.head.args ++ args
  let input := o.input.getD d.inputVal
  let sso := match o.streamStdout with
             | Option.none => d.head.streamStdout
             | some b => some b
  let sse := match o.streamStderr with
             | Option.none => d.head.streamStderr
             | some b => some b
  let ss := match o.stream with
            | Option.none => d.head.stream
            | some b => some b
  let text := o.text.getD d.head.text
  let enc := o.encoding.getD d.head.encoding
  let rf := match o.raiseF with
            | Option.none => d.head.raiseFlag
            | some b => some b
  let result := mkDesc (convert_args env.glob actualArgs kwargs) true input
    sso sse ss text enc rf
  if force then evaluate env os result w
  else (result, w, Option.none)

/-- `PipePy.__copy__`: re-run the constructor on the same argv, a copy of
the input and the parent's stream/text/encoding settings; the copy is
lazy and the `_raise` flag is NOT passed on (it is left at its default
None), so the copy follows the process-wide raise policy. -/
def copyDesc (g : String → List String) : Desc → Desc
  | .base n =>
      .base (freshNode (convert_args g n.args []) true n.dataInput
        n.streamStdout n.streamStderr n.stream n.text n.encoding Option.none)
  | .piped n up =>
      .piped (freshNode (convert_args g n.args []) true .noData
        n.streamStdout n.streamStderr n.stream n.text n.encoding Option.none)
        (copyDesc g up)

/-- `copy(self._input)`: a PipePy input is copied via `__copy__`, the
other kinds of input are unaffected. -/
def copyInput (g : String → List String) : InputVal → InputVal
  | .desc up => .desc (copyDesc g up)
  | v => v

/-- `PipePy.__getattr__(attr)`: a new descriptor with `attr` appended to
the argv, the laziness INHERITED from the parent (`_lazy=self._lazy`), a
copy of the input, and every other configuration field carried over. -/
def getattrOp (g : String → List String) (attr : String) (d : Desc) : Desc :=
  mkDesc (convert_args g (d.head.args ++ [attr]) []) d.head.lazy
    (copyInput g d.inputVal) d.head.streamStdout d.head.streamStderr
    d.head.stream d.head.text d.head.encoding d.head.raiseFlag

/-- `PipePy.delay`: copy, then perform the start and feed steps of the
copy's evaluation, but not the wait step. -/
def delay (env : Env) (d : Desc) (w : World) : Desc × World :=
  let c := copyDesc env.glob d
  let r1 := start_background_job env false c w
  feedF env r1.1.depth r1.1 r1.2

/-- Python parameter kinds as `_send_output_to_function` checks them. -/
inductive PKind where
  | posOrKw
  | otherKind
deriving Repr, DecidableEq

/-- Values the pipe machinery passes to a piped-to callable. -/
inductive PyVal where
  | int (i : Int)
  | str (s : String)
  | noneVal
  | streamHandle (isStdout : Bool) (pid : Nat)
deriving Repr, DecidableEq

/-- A Python callable as the Pipe Resolver sees it: its declared
parameters, its behaviour on the keyword arguments it is invoked with,
and whether its return value is a generator. -/
structure Func (α : Type) where
  params : List (String × PKind)
  run : List (String × PyVal) → α
  returnsGen : Bool

/-- The outcome of `_send_output_to_function`: a plain return value, or a
returned generator wrapped so that draining it also waits the command. -/
inductive FuncOutcome (α : Type) where
  | ret (a : α)
  | genWrapped (a : α)

/-- `PipePy._send_output_to_function(func)`: an empty parameter list or a
non-positional-or-keyword parameter is a signature error; parameter names
within {returncode, output, errors} fully evaluate the command and call
the function with the values it declared, by name; names within
{stdout, stderr} start the command in the background and pass the live
stream handles; anything else is a signature error. -/
def send_output_to_function {α : Type} (env : Env) (os : OS) (f : Func α)
    (d : Desc) (w : World) : Desc × World × Except Err (FuncOutcome α) :=
  if f.params.isEmpty then (d, w, .error .typeError)
  else if !(f.params.all (fun p => p.2 == PKind.posOrKw)) then
    (d, w, .error .typeError)
  else
    let keys := f.params.map Prod.fst
    if keys.all (fun k => k == "returncode" || k == "output" || k == "errors") then
      match returncodeProp env os d w with
      | (_, d1, w1, some e) => (d1, w1, .error e)
      | (rc, d1, w1, Option.none) =>
          match stdoutProp env os d1 w1 with
          | (_, d2, w2, some e) => (d2, w2, .error e)
          | (so, d2, w2, Option.none) =>
              match stderrProp env os d2 w2 with
              | (_, d3, w3, some e) => (d3, w3, .error e)
              | (se, d3, w3, Option.none) =>
                  let strVal : Option String → PyVal := fun v =>
                    match v with
                    | some s => .str s
                    | Option.none => .noneVal
                  let arguments : List (String × PyVal) :=
                    [("returncode", match rc with
                                    | some v => .int v
                                    | Option.none => .noneVal),
                     ("output", strVal so), ("errors", strVal se)]
                  let kwargs := arguments.filter (fun kv => keys.contains kv.1)
                  (d3, w3, .ok (.ret (f.run kwargs)))
    else if keys.all (fun k => k == "stdout" || k == "stderr") then
      let r1 := start_background_job env false d w
      let r2 := feedF env r1.1.depth r1.1 r1.2
      match r2.1.head.process with
      | Option.none => (r2.1, r2.2, .error .assertionError)
      | some pid =>
          let arguments : List (String × PyVal) :=
            [("stdout", .streamHandle true pid), ("stderr", .streamHandle false pid)]
          let kwargs := arguments.filter (fun kv => keys.contains kv.1)
          let a := f.run kwargs
          if f.returnsGen then (r2.1, r2.2, .ok (.genWrapped a))
          else
            match wait env os Option.none r2.1 r2.2 with
            | (d3, w3, some e) => (d3, w3, .error e)
            | (d3, w3, Option.none) => (d3, w3, .ok (.ret a))
    else (d, w, .error .typeError)

/-- An operand of a pipe operation, classified the way `_pipe` inspects
it with isinstance/callable checks.  `iterData`/`genData` are
non-descriptor iterables (lists, strings, generators) carrying the chunks
they yield; `other` is anything else, e.g. an integer. -/
inductive Operand (α : Type) where
  | desc (d : Desc)
  | iterData (s : String)
  | func (f : Func α)
  | genData (s : String)
  | other
deriving Inhabited

/-- `isinstance(x, Iterable)`: descriptors, lists/strings and generators
are iterable; plain functions and e.g. integers are not. -/
def Operand.isIterable {α : Type} : Operand α → Bool
  | .desc _ => true
  | .iterData _ => true
  | .genData _ => true
  | _ => false

/-- The result of `_pipe`.  `pyNone` models the implicit `return None`
of the branches that fall through without returning anything;
`notImpl` models the explicit `return NotImplemented`. -/
inductive PipeOut (α : Type) where
  | descOut (d : Desc) (w : World) (e : Option Err)
  | funcOut (d : Desc) (w : World) (r : Except Err (FuncOutcome α))
  | genOut (d : Desc) (w : World)
  | pyNone
  | notImpl

/-- `PipePy._pipe(left, right)`: the five recognized modes, in the order
the code checks them.  The descriptor-result modes go through `__call__`
with only the `_input` override (`right(_input=left)`).  The branches
where `right` is a descriptor but `left` is not iterable, and where
`left` is a descriptor but `right` is neither callable nor a generator,
fall off the end of the function and return None. -/
def pipeOp {α : Type} (env : Env) (os : OS) :
    Operand α → Operand α → World → PipeOut α
  | .desc l, .desc r, w =>
      let c := callOp env os [] [] { input := some (.desc l) } r w
      .descOut c.1 c.2.1 c.2.2
  | l, .desc r, w =>
      if l.isIterable then
        match l with
        | .iterData s =>
            let c := callOp env os [] [] { input := some (.data s) } r w
            .descOut c.1 c.2.1 c.2.2
        | .genData s =>
            let c := callOp env os [] [] { input := some (.data s) } r w
            .descOut c.1 c.2.1 c.2.2
        | _ => .pyNone
      else .pyNone
  | .desc l, r, w =>
      match r with
      | .func f =>
          let c := send_output_to_function env os f l w
          .funcOut c.1 c.2.1 c.2.2
      | .genData _ => .genOut l w
      | _ => .pyNone
  | _, _, _ => .notImpl

/-! ### Chain predicates -/

/-- Every descriptor of the chain has a started process. -/
def Desc.allStarted (d : Desc) : Bool := d.nodes.all (fun n => n.process.isSome)

/-- Every descriptor of the chain has a recorded return code. -/
def Desc.allReaped (d : Desc) : Bool := d.nodes.all (fun n => n.returncode.isSome)

/-- Every strict upstream descriptor of the chain has a recorded
return code. -/
def Desc.upsReaped : Desc → Bool
  | .base _ => true
  | .piped _ up => up.allReaped

/-- The effective raise policy of every descriptor of the chain is off. -/
def Desc.noRaise (env : Env) (d : Desc) : Bool :=
  d.nodes.all (fun n => (n.raiseFlag.getD env.alwaysRaise) == false)

/-- The pids of the started processes along the chain. -/
def Desc.chainPids (d : Desc) : List Nat := d.nodes.filterMap (fun n => n.process)

/-- The pids of the started processes of the strict upstream chain. -/
def Desc.strictPids : Desc → List Nat
  | .base _ => []
  | .piped _ up => up.chainPids

/-- A node with the fields recorded by waiting wiped: two descriptors
with equal erased node lists agree on everything waiting cannot change. -/
def Node.erase (n : Node) : Node :=
  { n with returncode := Option.none, stdout := Option.none,
           stderr := Option.none }

/-- Every descriptor of the chain is lazy. -/
def Desc.allLazy (d : Desc) : Bool := d.nodes.all (fun n => n.lazy)

/-- Every descriptor of the chain is unstarted and unevaluated (a freshly
built pipeline). -/
def Desc.allFresh (d : Desc) : Bool :=
  d.nodes.all (fun n => n.process.isNone && n.returncode.isNone)

/-! ### Structural lemmas -/

@[simp] theorem Desc.head_base (n : Node) : (Desc.base n).head = n := rfl

@[simp] theorem Desc.head_piped (n : Node) (up : Desc) :
    (Desc.piped n up).head = n := rfl

@[simp] theorem Desc.setHead_base (n m : Node) :
    (Desc.base n).setHead m = .base m := rfl

@[simp] theorem Desc.setHead_piped (n m : Node) (up : Desc) :
    (Desc.piped n up).setHead m = .piped m up := rfl

@[simp] theorem Desc.nodes_base (n : Node) : (Desc.base n).nodes = [n] := rfl

@[simp] theorem Desc.nodes_piped (n : Node) (up : Desc) :
    (Desc.piped n up).nodes = n :: up.nodes := rfl

@[simp] theorem Desc.depth_base (n : Node) : (Desc.base n).depth = 0 := rfl

@[simp] theorem Desc.depth_piped (n : Node) (up : Desc) :
    (Desc.piped n up).depth = up.depth + 1 := rfl

theorem Desc.nodes_length (d : Desc) : d.nodes.length = d.depth + 1 := by
  induction d with
  | base n => simp
  | piped n up ih => simp [ih]

@[simp] theorem Node.erase_reap (os : OS) (n : Node) (pid : Nat) :
    (Node.reap os n pid).erase = n.erase := rfl

@[simp] theorem Node.erase_process (n : Node) : n.erase.process = n.process := rfl

@[simp] theorem Node.erase_raiseFlag (n : Node) :
    n.erase.raiseFlag = n.raiseFlag := rfl

@[simp] theorem Node.erase_lazy (n : Node) : n.erase.lazy = n.lazy := rfl

@[simp] theorem Node.erase_args (n : Node) : n.erase.args = n.args := rfl

theorem Desc.depth_eq_of_erase {d d' : Desc}
    (h : d.nodes.map Node.erase = d'.nodes.map Node.erase) :
    d.depth = d'.depth := by
  have hl : d.nodes.length = d'.nodes.length := by
    simpa using congrArg List.length h
  have h1 := d.nodes_length
  have h2 := d'.nodes_length
  omega

theorem Desc.chainPids_eq_of_erase {d d' : Desc}
    (h : d.nodes.map Node.erase = d'.nodes.map Node.erase) :
    d.chainPids = d'.chainPids := by
  have h1 : d.chainPids = (d.nodes.map Node.erase).filterMap (fun n => n.process) := by
    rw [List.filterMap_map]; rfl
  have h2 : d'.chainPids = (d'.nodes.map Node.erase).filterMap (fun n => n.process) := by
    rw [List.filterMap_map]; rfl
  rw [h1, h2, h]

theorem Desc.allStarted_eq_of_erase {d d' : Desc}
    (h : d.nodes.map Node.erase = d'.nodes.map Node.erase) :
    d.allStarted = d'.allStarted := by
  have h1 : d.allStarted = (d.nodes.map Node.erase).all (fun n => n.process.isSome) := by
    rw [List.all_map]; rfl
  have h2 : d'.allStarted = (d'.nodes.map Node.erase).all (fun n => n.process.isSome) := by
    rw [List.all_map]; rfl
  rw [h1, h2, h]

theorem Desc.noRaise_eq_of_erase (env : Env) {d d' : Desc}
    (h : d.nodes.map Node.erase = d'.nodes.map Node.erase) :
    d.noRaise env = d'.noRaise env := by
  have h1 : d.noRaise env =
      (d.nodes.map Node.erase).all (fun n => (n.raiseFlag.getD env.alwaysRaise) == false) := by
    rw [List.all_map]; rfl
  have h2 : d'.noRaise env =
      (d'.nodes.map Node.erase).all (fun n => (n.raiseFlag.getD env.alwaysRaise) == false) := by
    rw [List.all_map]; rfl
  rw [h1, h2, h]

/-! ### Lemmas about the wait step -/

/-- The raise-policy step never changes the descriptor. -/
@[simp] theorem waitFinish_fst (env : Env) (r : Desc × World × Option Err) :
    (waitFinish env r).1 = r.1 := by
  rcases r with ⟨d2, w2, e⟩
  cases e <;> simp [waitFinish] <;> split <;> simp

/-- The raise-policy step never changes the world. -/
@[simp] theorem waitFinish_snd (env : Env) (r : Desc × World × Option Err) :
    (waitFinish env r).2.1 = r.2.1 := by
  rcases r with ⟨d2, w2, e⟩
  cases e <;> simp [waitFinish] <;> split <;> simp

/-- With the effective raise policy off and no pending exception the
raise-policy step is the identity. -/
theorem waitFinish_noRaise (env : Env) {r : Desc × World × Option Err}
    (he : r.2.2 = Option.none)
    (hrf : (r.1.head.raiseFlag.getD env.alwaysRaise) = false) :
    waitFinish env r = r := by
  rcases r with ⟨d2, w2, e⟩
  simp only at he
  subst he
  simp only at hrf
  simp [waitFinish, hrf]

/-- The upstream loop of `wait` never changes the head descriptor's own
fields. -/
theorem waitAux_false_head (env : Env) (os : OS) (fuel : Nat) (t : Option Nat)
    (d : Desc) (w : World) :
    ((waitAux env os fuel false t d w).1).head = d.head := by
  cases d with
  | base n => cases fuel <;> simp [waitAux]
  | piped n up =>
      cases fuel with
      | zero => simp [waitAux]
      | succ f =>
          simp only [waitAux]
          rcases h : waitAux env os f true t up w with ⟨up', w', e⟩
          cases e <;> simp

/-- Waiting (either mode) only ever touches the returncode/stdout/stderr
fields of the chain's nodes. -/
theorem waitAux_erase (env : Env) (os : OS) :
    ∀ (fuel : Nat) (mode : Bool) (t : Option Nat) (d : Desc) (w : World),
    ((waitAux env os fuel mode t d w).1).nodes.map Node.erase =
      d.nodes.map Node.erase := by
  intro fuel
  induction fuel with
  | zero =>
      intro mode t d w
      cases mode
      · cases d <;> simp [waitAux]
      · simp [waitAux]
  | succ f ih =>
      intro mode t d w
      cases mode
      · -- the upstream loop
        cases d with
        | base n => simp [waitAux]
        | piped n up =>
            simp only [waitAux]
            rcases h1 : waitAux env os f true t up w with ⟨up', w', e⟩
            have e1 : up'.nodes.map Node.erase = up.nodes.map Node.erase := by
              have := ih true t up w
              rw [h1] at this
              exact this
            cases e with
            | some err => simpa using e1
            | none =>
                have e2 := ih false t up' w'
                simp only [List.map, Desc.nodes_piped]
                rw [e2, e1]
      · -- the wait body
        simp only [waitAux]
        cases hp : d.head.process with
        | none => simp
        | some pid =>
            by_cases hto : timesOut os w pid t
            · simp [hto]
            · simp only [hto, if_false, Bool.false_eq_true, waitFinish_fst]
              have hd1 : (d.setHead (Node.reap os d.head pid)).nodes.map Node.erase =
                  d.nodes.map Node.erase := by
                cases d <;> simp
              rw [ih false t (d.setHead (Node.reap os d.head pid)) (deregister w pid),
                hd1]

theorem Desc.head_mem (d : Desc) : d.head ∈ d.nodes := by
  cases d <;> simp

theorem Desc.allReaped_eq (d : Desc) :
    d.allReaped = (d.head.returncode.isSome && d.upsReaped) := by
  cases d <;> simp [Desc.allReaped, Desc.upsReaped]

theorem Desc.allStarted_piped (n : Node) (up : Desc) :
    (Desc.piped n up).allStarted = (n.process.isSome && up.allStarted) := by
  simp [Desc.allStarted]

theorem Desc.noRaise_piped (env : Env) (n : Node) (up : Desc) :
    (Desc.piped n up).noRaise env =
      (((n.raiseFlag.getD env.alwaysRaise) == false) && up.noRaise env) := by
  simp [Desc.noRaise]

theorem Desc.chainPids_cons {d : Desc} {pid : Nat}
    (hp : d.head.process = some pid) :
    d.chainPids = pid :: d.strictPids := by
  cases d <;> simp_all [Desc.chainPids, Desc.strictPids]

theorem Desc.strictPids_setHead (d : Desc) (m : Node) :
    (d.setHead m).strictPids = d.strictPids := by
  cases d <;> simp [Desc.strictPids]

theorem Desc.depth_setHead (d : Desc) (m : Node) :
    (d.setHead m).depth = d.depth := by
  cases d <;> simp

theorem Desc.setHead_erase (d : Desc) {m : Node} (hm : m.erase = d.head.erase) :
    (d.setHead m).nodes.map Node.erase = d.nodes.map Node.erase := by
  cases d <;> simp [hm]

/-- A successful unbounded wait: no exception under an all-off raise
policy, the whole chain reaped (mode true) resp. the strict upstream part
reaped (mode false), and the registry left holding only entries it
already held, none of them for a pid of the (strict upstream) chain. -/
theorem waitAux_ok (env : Env) (os : OS) : ∀ (fuel : Nat),
    (∀ (d : Desc) (w : World), 2 * d.depth ≤ fuel → d.allStarted = true →
      d.noRaise env = true →
      (waitAux env os fuel false Option.none d w).2.2 = Option.none ∧
      ((waitAux env os fuel false Option.none d w).1).upsReaped = true ∧
      ∀ p ∈ ((waitAux env os fuel false Option.none d w).2.1).jobPids,
        p ∈ w.jobPids ∧ p ∉ d.strictPids) ∧
    (∀ (d : Desc) (w : World), 2 * d.depth + 1 ≤ fuel → d.allStarted = true →
      d.noRaise env = true →
      (waitAux env os fuel true Option.none d w).2.2 = Option.none ∧
      ((waitAux env os fuel true Option.none d w).1).allReaped = true ∧
      ∀ p ∈ ((waitAux env os fuel true Option.none d w).2.1).jobPids,
        p ∈ w.jobPids ∧ p ∉ d.chainPids) := by
  intro fuel
  induction fuel with
  | zero =>
      constructor
      · intro d w hfuel _ _
        have hd : d.depth = 0 := by omega
        cases d with
        | base n => simp [waitAux, Desc.strictPids, Desc.upsReaped]
        | piped n up => simp at hd
      · intro d w hfuel _ _
        omega
  | succ f ih =>
      constructor
      · -- the upstream loop
        intro d w hfuel hstart hnr
        cases d with
        | base n => simp [waitAux, Desc.strictPids, Desc.upsReaped]
        | piped n up =>
            simp only [Desc.depth_piped] at hfuel
            rw [Desc.allStarted_piped] at hstart
            rw [Desc.noRaise_piped] at hnr
            simp only [Bool.and_eq_true] at hstart hnr
            have hup := ih.2 up w (by omega) hstart.2 hnr.2
            rcases h1 : waitAux env os f true Option.none up w with ⟨up', w', e⟩
            rw [h1] at hup
            obtain ⟨he, hreap, hjobs⟩ := hup
            simp only at he
            subst he
            have herase : up'.nodes.map Node.erase = up.nodes.map Node.erase := by
              have := waitAux_erase env os f true Option.none up w
              rw [h1] at this; exact this
            have hup2 := ih.1 up' w'
              (by have hdep := Desc.depth_eq_of_erase herase; omega)
              (by rw [Desc.allStarted_eq_of_erase herase]; exact hstart.2)
              (by rw [Desc.noRaise_eq_of_erase env herase]; exact hnr.2)
            obtain ⟨he2, hups2, hjobs2⟩ := hup2
            refine ⟨?_, ?_, ?_⟩
            · simp [waitAux, h1, he2]
            · simp only [waitAux, h1]
              have hhead : ((waitAux env os f false Option.none up' w').1).head = up'.head :=
                waitAux_false_head env os f Option.none up' w'
              have hreaped : ((waitAux env os f false Option.none up' w').1).allReaped = true := by
                rw [Desc.allReaped_eq, hhead]
                have hh : up'.head.returncode.isSome = true := by
                  have := List.all_eq_true.mp hreap up'.head up'.head_mem
                  simpa using this
                simp [hh, hups2]
              simpa [Desc.upsReaped] using hreaped
            · intro p hp
              simp only [waitAux, h1] at hp
              have hp2 := hjobs2 p hp
              have hp1 := hjobs p hp2.1
              refine ⟨hp1.1, ?_⟩
              have : Desc.strictPids (Desc.piped n up) = up.chainPids := rfl
              rw [this]
              exact hp1.2
      · -- the wait body
        intro d w hfuel hstart hnr
        have hps : d.head.process.isSome = true := by
          have := List.all_eq_true.mp hstart d.head d.head_mem
          simpa using this
        rcases hp : d.head.process with _ | pid
        · rw [hp] at hps; simp at hps
        · have hto : timesOut os w pid Option.none = false := rfl
          have herase1 : (d.setHead (Node.reap os d.head pid)).nodes.map Node.erase =
              d.nodes.map Node.erase := d.setHead_erase (by simp)
          have hloop := ih.1 (d.setHead (Node.reap os d.head pid)) (deregister w pid)
            (by rw [Desc.depth_setHead]; omega)
            (by rw [Desc.allStarted_eq_of_erase herase1]; exact hstart)
            (by rw [Desc.noRaise_eq_of_erase env herase1]; exact hnr)
          rcases hr : waitAux env os f false Option.none
              (d.setHead (Node.reap os d.head pid)) (deregister w pid) with ⟨d2, w2, e⟩
          rw [hr] at hloop
          obtain ⟨he, hups, hjobs⟩ := hloop
          simp only at he
          subst he
          have hhead2 : d2.head = (d.setHead (Node.reap os d.head pid)).head := by
            have := waitAux_false_head env os f Option.none
              (d.setHead (Node.reap os d.head pid)) (deregister w pid)
            rw [hr] at this; exact this
          have hhead1 : (d.setHead (Node.reap os d.head pid)).head =
              Node.reap os d.head pid := by
            cases d <;> simp
          have hnorf : (d2.head.raiseFlag.getD env.alwaysRaise) = false := by
            rw [hhead2, hhead1]
            have := List.all_eq_true.mp hnr d.head d.head_mem
            simpa [Node.reap] using this
          have hbody : waitAux env os (f + 1) true Option.none d w = (d2, w2, Option.none) := by
            simp only [waitAux, hp, hto, Bool.false_eq_true, if_false, hr]
            exact waitFinish_noRaise env rfl hnorf
          refine ⟨by simp [hbody], ?_, ?_⟩
          · rw [hbody]
            rw [Desc.allReaped_eq, hhead2, hhead1]
            simp only at hups
            simp [Node.reap, hups]
          · intro p hpm
            rw [hbody] at hpm
            have h2 := hjobs p hpm
            have hpmem : p ∈ w.jobPids ∧ p ≠ pid := by
              have := h2.1
              simp only [deregister, World.jobPids, List.mem_map, List.mem_filter] at this
              obtain ⟨a, ⟨ha1, ha2⟩, ha3⟩ := this
              constructor
              · exact List.mem_map.mpr ⟨a, ha1, ha3⟩
              · rw [← ha3]; simpa using ha2
            refine ⟨hpmem.1, ?_⟩
            rw [Desc.chainPids_cons hp]
            intro hcon
            rcases List.mem_cons.mp hcon with h | h
            · exact hpmem.2 h
            · have hss : (d.setHead (Node.reap os d.head pid)).strictPids = d.strictPids :=
                d.strictPids_setHead _
              rw [← hss] at h
              exact h2.2 h

/-- A successful unbounded `wait` on a started chain with the raise
policy off: no exception, the whole chain has recorded return codes, and
the registry retains only entries it already held, none of them keyed by
a pid of the chain. -/
theorem wait_ok (env : Env) (os : OS) (d : Desc) (w : World)
    (hs : d.allStarted = true) (hnr : d.noRaise env = true) :
    (wait env os Option.none d w).2.2 = Option.none ∧
    ((wait env os Option.none d w).1).allReaped = true ∧
    ∀ p ∈ ((wait env os Option.none d w).2.1).jobPids,
      p ∈ w.jobPids ∧ p ∉ d.chainPids :=
  (waitAux_ok env os (2 * d.depth + 1)).2 d w le_rfl hs hnr

/-- A bounded `wait` whose timeout expires raises TimeoutExpired and
leaves the descriptor and the world completely unchanged: nothing is
recorded, nothing is deregistered, nothing is marked collected. -/
theorem wait_timeout (env : Env) (os : OS) (d : Desc) (w : World)
    (pid : Nat) (t : Nat) (hp : d.head.process = some pid)
    (hto : timesOut os w pid (some t) = true) :
    wait env os (some t) d w = (d, w, some Err.timeoutExpired) := by
  simp [wait, waitAux, hp, hto]

/-- Whatever `wait` returns, the head descriptor has a recorded return
code whenever the wait body got past `communicate` (in particular on any
successful wait). -/
theorem wait_success_head (env : Env) (os : OS) (t : Option Nat)
    (d : Desc) (w : World)
    (he : (wait env os t d w).2.2 = Option.none) :
    ((wait env os t d w).1).head.returncode.isSome = true := by
  unfold wait at *
  rcases hp : d.head.process with _ | pid
  · simp [waitAux, hp] at he
  · by_cases hto : timesOut os w pid t
    · simp [waitAux, hp, hto] at he
    · have h1 : (waitAux env os (2 * d.depth + 1) true t d w).1 =
          (waitAux env os (2 * d.depth) false t
            (d.setHead (Node.reap os d.head pid)) (deregister w pid)).1 := by
        simp [waitAux, hp, hto]
      rw [h1]
      have h2 := waitAux_false_head env os (2 * d.depth) t
        (d.setHead (Node.reap os d.head pid)) (deregister w pid)
      rw [h2]
      have h3 : (d.setHead (Node.reap os d.head pid)).head =
          Node.reap os d.head pid := by cases d <;> simp
      rw [h3]
      simp [Node.reap]

/-! ### Lemmas about the start and feed steps -/

/-- A node with the fields recorded by spawning wiped. -/
def Node.unspawn (n : Node) : Node :=
  { n with process := Option.none, stdoutPiped := false, stderrPiped := false }

/-- A node with the field recorded by feeding wiped. -/
def Node.unfeed (n : Node) : Node := { n with inputConsumed := false }

theorem nodesAll_transfer {f : Node → Node} {q : Node → Bool}
    (hq : ∀ n, q (f n) = q n) {l l' : List Node}
    (h : l.map f = l'.map f) : l.all q = l'.all q := by
  have e1 : ∀ (m : List Node), (m.map f).all q = m.all q := by
    intro m
    rw [List.all_map]
    simp [Function.comp_def, hq]
  rw [← e1 l, ← e1 l', h]

theorem nodesProj_transfer {β : Type} {f : Node → Node} {q : Node → β}
    (hq : ∀ n, q (f n) = q n) {l l' : List Node}
    (h : l.map f = l'.map f) : l.map q = l'.map q := by
  have e1 : ∀ (m : List Node), (m.map f).map q = m.map q := by
    intro m
    rw [List.map_map]
    simp [Function.comp_def, hq]
  rw [← e1 l, ← e1 l', h]

theorem nodesFilterMap_transfer {β : Type} {f : Node → Node} {q : Node → Option β}
    (hq : ∀ n, q (f n) = q n) {l l' : List Node}
    (h : l.map f = l'.map f) : l.filterMap q = l'.filterMap q := by
  have e1 : ∀ (m : List Node), (m.map f).filterMap q = m.filterMap q := by
    intro m
    rw [List.filterMap_map]
    simp [Function.comp_def, hq]
  rw [← e1 l, ← e1 l', h]

theorem Desc.fresh_head {d : Desc} (hf : d.allFresh = true) :
    d.head.process = Option.none ∧ d.head.returncode = Option.none := by
  simp only [Desc.allFresh] at hf
  have h0 := List.all_eq_true.mp hf d.head d.head_mem
  simp only [Bool.and_eq_true, Option.isNone_iff_eq_none] at h0
  exact h0

theorem Desc.fresh_up {n : Node} {up : Desc}
    (hf : (Desc.piped n up).allFresh = true) : up.allFresh = true := by
  simp only [Desc.allFresh, Desc.nodes_piped, List.all_cons,
    Bool.and_eq_true] at hf ⊢
  exact hf.2

theorem Desc.chainPids_mem_piped {x : Nat} (m : Node) {up : Desc}
    (hx : x ∈ up.chainPids) : x ∈ (Desc.piped m up).chainPids := by
  simp only [Desc.chainPids, Desc.nodes_piped, List.filterMap_cons] at hx ⊢
  cases m.process
  · exact hx
  · exact List.mem_cons_of_mem _ hx

theorem Desc.head_eq_of_map {f : Node → Node} {d d' : Desc}
    (h : d.nodes.map f = d'.nodes.map f) : f d.head = f d'.head := by
  have h1 : (d.nodes.map f).head? = some (f d.head) := by cases d <;> simp
  have h2 : (d'.nodes.map f).head? = some (f d'.head) := by cases d' <;> simp
  rw [h, h2] at h1
  exact (Option.some.inj h1).symm

/-- Starting only ever touches the process/pipe fields of the chain's
nodes. -/
theorem start_unspawn (env : Env) (stp : Bool) : ∀ (d : Desc) (w : World),
    ((start_background_job env stp d w).1).nodes.map Node.unspawn =
      d.nodes.map Node.unspawn := by
  intro d
  induction d with
  | base n =>
      intro w
      by_cases h : n.process.isSome && n.lazy
      · simp [start_background_job, h]
      · simp [start_background_job, h, spawnNode, Node.unspawn]
  | piped n up ih =>
      intro w
      by_cases h : n.process.isSome && n.lazy
      · simp [start_background_job, h]
      · by_cases h2 : up.head.returncode.isSome
        · simp [start_background_job, h, h2, spawnNode, Node.unspawn]
        · simp only [start_background_job, h, h2, Bool.false_eq_true, if_false,
            Desc.nodes_piped, List.map, ih w]
          simp [spawnNode, Node.unspawn]

/-- Starting a completely fresh chain starts every process of the chain. -/
theorem start_fresh_started (env : Env) (stp : Bool) : ∀ (d : Desc) (w : World),
    d.allFresh = true →
    ((start_background_job env stp d w).1).allStarted = true := by
  intro d
  induction d with
  | base n =>
      intro w hf
      have hpn : n.process = Option.none := (Desc.fresh_head hf).1
      simp [start_background_job, hpn, spawnNode, Desc.allStarted]
  | piped n up ih =>
      intro w hf
      have hpn : n.process = Option.none := (Desc.fresh_head hf).1
      have hupf : up.allFresh = true := Desc.fresh_up hf
      have hupr : up.head.returncode.isSome = false := by
        rw [(Desc.fresh_head hupf).2]
        rfl
      simp only [start_background_job, hpn, Option.isSome_none, Bool.false_and,
        Bool.false_eq_true, if_false, hupr]
      rw [Desc.allStarted_piped]
      simp [spawnNode, ih _ hupf]

@[simp] theorem spawnNode_process (env : Env) (n : Node) (w : World) :
    (spawnNode env n w).1.process = some w.nextPid := rfl

theorem Desc.chainPids_head_mem {d : Desc} {pid : Nat}
    (hp : d.head.process = some pid) : pid ∈ d.chainPids := by
  rw [Desc.chainPids_cons hp]
  exact List.mem_cons_self _ _

/-- Every registry entry after a start was either already present or is
keyed by a pid of the started chain. -/
theorem start_jobs_chain (env : Env) (stp : Bool) : ∀ (d : Desc) (w : World),
    ∀ e ∈ ((start_background_job env stp d w).2).jobs,
      e ∈ w.jobs ∨ e.1 ∈ ((start_background_job env stp d w).1).chainPids := by
  intro d
  induction d with
  | base n =>
      intro w e he
      by_cases h : n.process.isSome && n.lazy
      · simp only [start_background_job, h, if_true] at he ⊢
        exact Or.inl he
      · simp only [start_background_job, h, Bool.false_eq_true, if_false,
          spawnNode] at he ⊢
        rcases List.mem_append.mp he with h1 | h1
        · exact Or.inl (List.mem_of_mem_filter h1)
        · simp only [List.mem_singleton] at h1
          subst h1
          right
          exact Desc.chainPids_head_mem (d := .base _) rfl
  | piped n up ih =>
      intro w e he
      by_cases h : n.process.isSome && n.lazy
      · simp only [start_background_job, h, if_true] at he ⊢
        exact Or.inl he
      · by_cases h2 : up.head.returncode.isSome
        · simp only [start_background_job, h, h2, Bool.false_eq_true, if_false,
            if_true, spawnNode] at he ⊢
          rcases List.mem_append.mp he with h1 | h1
          · exact Or.inl (List.mem_of_mem_filter h1)
          · simp only [List.mem_singleton] at h1
            subst h1
            right
            exact Desc.chainPids_head_mem (d := .piped _ up) rfl
        · simp only [start_background_job, h, h2, Bool.false_eq_true, if_false,
            spawnNode] at he ⊢
          rcases List.mem_append.mp he with h1 | h1
          · have h3 := ih w e (List.mem_of_mem_filter h1)
            rcases h3 with h3 | h3
            · exact Or.inl h3
            · right
              exact Desc.chainPids_mem_piped _ h3
          · simp only [List.mem_singleton] at h1
            subst h1
            right
            exact Desc.chainPids_head_mem
              (d := .piped _ (start_background_job env stp up w).1) rfl

theorem count_filtered (l : List (Nat × List String)) (pid : Nat) :
    List.count pid ((l.filter (fun e => e.1 ≠ pid)).map Prod.fst) = 0 := by
  rw [List.count_eq_zero]
  intro hmem
  simp only [List.mem_map, List.mem_filter] at hmem
  obtain ⟨a, ⟨_, ha2⟩, ha3⟩ := hmem
  simp only [decide_eq_true_eq] at ha2
  exact ha2 ha3

/-- Registering a spawned process: the new pid has exactly one entry. -/
theorem spawnNode_count (env : Env) (n : Node) (w : World) :
    List.count w.nextPid (((spawnNode env n w).2).jobPids) = 1 := by
  simp only [spawnNode, World.jobPids, List.map_append, List.count_append,
    count_filtered]
  simp

theorem spawnNode_mem (env : Env) (n : Node) (w : World) :
    (w.nextPid, n.args) ∈ ((spawnNode env n w).2).jobs := by
  simp [spawnNode]

theorem start_nextPid_le (env : Env) (stp : Bool) : ∀ (d : Desc) (w : World),
    w.nextPid ≤ ((start_background_job env stp d w).2).nextPid := by
  intro d
  induction d with
  | base n =>
      intro w
      by_cases h : n.process.isSome && n.lazy
      · simp [start_background_job, h]
      · simp [start_background_job, h, spawnNode]
  | piped n up ih =>
      intro w
      by_cases h : n.process.isSome && n.lazy
      · simp [start_background_job, h]
      · by_cases h2 : up.head.returncode.isSome
        · simp [start_background_job, h, h2, spawnNode]
        · simp only [start_background_job, h, h2, Bool.false_eq_true, if_false]
          have h3 := ih w
          have h4 : ((start_background_job env stp up w).2).nextPid ≤
              ((spawnNode env n (start_background_job env stp up w).2).2).nextPid := by
            simp [spawnNode]
          omega

/-- Starting an unstarted descriptor spawns its own process last, with a
pid never seen by the registry before, and registers exactly one entry
for it, carrying the descriptor's argv. -/
theorem start_insert (env : Env) (stp : Bool) (d : Desc) (w : World)
    (h0 : d.head.process = Option.none) :
    ∃ p, ((start_background_job env stp d w).1).head.process = some p ∧
      w.nextPid ≤ p ∧
      List.count p (((start_background_job env stp d w).2).jobPids) = 1 ∧
      (p, d.head.args) ∈ ((start_background_job env stp d w).2).jobs := by
  cases d with
  | base n =>
      simp only [Desc.head_base] at h0
      have h : (n.process.isSome && n.lazy) = false := by simp [h0]
      refine ⟨w.nextPid, ?_, le_rfl, ?_, ?_⟩
      · simp [start_background_job, h]
      · simp only [start_background_job, h, Bool.false_eq_true, if_false]
        exact spawnNode_count env n w
      · simp only [start_background_job, h, Bool.false_eq_true, if_false]
        exact spawnNode_mem env n w
  | piped n up =>
      simp only [Desc.head_piped] at h0
      have h : (n.process.isSome && n.lazy) = false := by simp [h0]
      by_cases h2 : up.head.returncode.isSome
      · refine ⟨w.nextPid, ?_, le_rfl, ?_, ?_⟩
        · simp [start_background_job, h, h2]
        · simp only [start_background_job, h, h2, Bool.false_eq_true, if_false,
            if_true]
          exact spawnNode_count env n w
        · simp only [start_background_job, h, h2, Bool.false_eq_true, if_false,
            if_true]
          exact spawnNode_mem env n w
      · refine ⟨((start_background_job env stp up w).2).nextPid, ?_,
          start_nextPid_le env stp up w, ?_, ?_⟩
        · simp [start_background_job, h, h2]
        · simp only [start_background_job, h, h2, Bool.false_eq_true, if_false]
          exact spawnNode_count env n _
        · simp only [start_background_job, h, h2, Bool.false_eq_true, if_false]
          exact spawnNode_mem env n _

/-- An already-started lazy descriptor aborts the start step unchanged. -/
theorem start_abort (env : Env) (stp : Bool) (d : Desc) (w : World)
    (h : (d.head.process.isSome && d.head.lazy) = true) :
    start_background_job env stp d w = (d, w) := by
  cases d <;> simp only [Desc.head_base, Desc.head_piped] at h <;>
    simp [start_background_job, h]

@[simp] theorem Node.unfeed_consume (n : Node) :
    (Node.unfeed { n with inputConsumed := true }) = n.unfeed := rfl

/-- Feeding never touches the head's fields other than its
input-consumed flag. -/
theorem feedF_head_unfeed (env : Env) : ∀ (fuel : Nat) (d : Desc) (w : World),
    ((feedF env fuel d w).1).head.unfeed = d.head.unfeed := by
  intro fuel d w
  cases d with
  | base n =>
      cases fuel <;> by_cases h : n.inputConsumed && n.lazy <;>
        simp [feedF, h]
  | piped n up =>
      cases fuel with
      | zero => simp [feedF]
      | succ f =>
          by_cases h : n.inputConsumed && n.lazy
          · simp [feedF, h]
          · by_cases h2 : up.head.returncode.isSome <;> simp [feedF, h, h2]

/-- On a started, all-lazy chain the feed step changes no world state and
touches nothing but the input-consumed flags. -/
theorem feedF_lazyStarted (env : Env) : ∀ (fuel : Nat) (d : Desc) (w : World),
    d.allStarted = true → d.allLazy = true →
    (feedF env fuel d w).2 = w ∧
    ((feedF env fuel d w).1).nodes.map Node.unfeed = d.nodes.map Node.unfeed := by
  intro fuel
  induction fuel with
  | zero =>
      intro d w _ _
      cases d with
      | base n => by_cases h : n.inputConsumed && n.lazy <;> simp [feedF, h]
      | piped n up => simp [feedF]
  | succ f ih =>
      intro d w hs hl
      cases d with
      | base n => by_cases h : n.inputConsumed && n.lazy <;> simp [feedF, h]
      | piped n up =>
          by_cases h : n.inputConsumed && n.lazy
          · simp [feedF, h]
          · by_cases h2 : up.head.returncode.isSome
            · simp [feedF, h, h2]
            · have hsup : up.allStarted = true := by
                rw [Desc.allStarted_piped] at hs
                simp only [Bool.and_eq_true] at hs
                exact hs.2
              have hlup : up.allLazy = true := by
                simp only [Desc.allLazy, Desc.nodes_piped, List.all_cons,
                  Bool.and_eq_true] at hl
                exact hl.2
              have habort : start_background_job env false up w = (up, w) := by
                apply start_abort
                have h3 := List.all_eq_true.mp hsup up.head up.head_mem
                have h4 := List.all_eq_true.mp hlup up.head up.head_mem
                simp only [decide_eq_true_eq] at h3 h4
                simp_all
              have hih := ih up w hsup hlup
              simp only [feedF, h, h2, Bool.false_eq_true, if_false, habort]
              refine ⟨hih.1, ?_⟩
              simp [hih.2]

/-! ### Lemmas about evaluation -/

/-- The configuration fields of a node: everything `__init__` sets from
its parameters, i.e. everything evaluation never changes. -/
def Node.cfg (n : Node) :
    List String × Bool × DataSrc × Option Bool × Option Bool × Option Bool ×
      Bool × String × Option Bool :=
  (n.args, n.lazy, n.dataInput, n.streamStdout, n.streamStderr, n.stream,
    n.text, n.encoding, n.raiseFlag)

@[simp] theorem Node.cfg_unspawn (n : Node) : n.unspawn.cfg = n.cfg := rfl

@[simp] theorem Node.cfg_unfeed (n : Node) : n.unfeed.cfg = n.cfg := rfl

@[simp] theorem Node.cfg_erase (n : Node) : n.erase.cfg = n.cfg := rfl

/-- A lazy descriptor with a recorded return code is not evaluated again:
`_evaluate` returns immediately with no state change. -/
theorem evaluate_idem (env : Env) (os : OS) (d : Desc) (w : World)
    (hlazy : d.head.lazy = true) (hrc : d.head.returncode.isSome = true) :
    evaluate env os d w = (d, w, Option.none) := by
  simp [evaluate, hlazy, hrc]

/-- Evaluation never changes the configuration fields of the head. -/
theorem evaluate_head_cfg (env : Env) (os : OS) (d : Desc) (w : World) :
    ((evaluate env os d w).1).head.cfg = d.head.cfg := by
  by_cases hguard : d.head.returncode.isSome && d.head.lazy
  · simp [evaluate, hguard]
  · simp only [evaluate, hguard, Bool.false_eq_true, if_false]
    have h1 : Node.unspawn ((start_background_job env false d w).1).head =
        Node.unspawn d.head :=
      Desc.head_eq_of_map (start_unspawn env false d w)
    have h2 : Node.unfeed ((feed_input env (start_background_job env false d w).1
        (start_background_job env false d w).2).1).head =
        Node.unfeed ((start_background_job env false d w).1).head :=
      feedF_head_unfeed env _ _ _
    have h3 := waitAux_erase env os
      (2 * ((feed_input env (start_background_job env false d w).1
        (start_background_job env false d w).2).1).depth + 1) true Option.none
      ((feed_input env (start_background_job env false d w).1
        (start_background_job env false d w).2).1)
      ((feed_input env (start_background_job env false d w).1
        (start_background_job env false d w).2).2)
    have h4 := Desc.head_eq_of_map h3
    calc ((wait env os Option.none _ _).1).head.cfg
        = (Node.erase ((wait env os Option.none _ _).1).head).cfg := rfl
      _ = (Node.erase ((feed_input env (start_background_job env false d w).1
            (start_background_job env false d w).2).1).head).cfg := by rw [wait]; rw [h4]
      _ = ((feed_input env (start_background_job env false d w).1
            (start_background_job env false d w).2).1).head.cfg := rfl
      _ = (Node.unfeed ((feed_input env (start_background_job env false d w).1
            (start_background_job env false d w).2).1).head).cfg := rfl
      _ = (Node.unfeed ((start_background_job env false d w).1).head).cfg := by rw [h2]
      _ = ((start_background_job env false d w).1).head.cfg := rfl
      _ = (Node.unspawn ((start_background_job env false d w).1).head).cfg := rfl
      _ = (Node.unspawn d.head).cfg := by rw [h1]
      _ = d.head.cfg := rfl

/-- A successful evaluation leaves a recorded return code on the head. -/
theorem evaluate_success_returncode (env : Env) (os : OS) (d : Desc) (w : World)
    (he : (evaluate env os d w).2.2 = Option.none) :
    ((evaluate env os d w).1).head.returncode.isSome = true := by
  by_cases hguard : d.head.returncode.isSome && d.head.lazy
  · simp only [evaluate, hguard, if_true]
    simp only [Bool.and_eq_true] at hguard
    exact hguard.1
  · simp only [evaluate, hguard, Bool.false_eq_true, if_false] at he ⊢
    exact wait_success_head env os Option.none _ _ he

/-- Extractors for the configuration tuple. -/
theorem Node.args_of_cfg {m n : Node} (h : m.cfg = n.cfg) : m.args = n.args :=
  congrArg (fun x => x.1) h

theorem Node.lazy_of_cfg {m n : Node} (h : m.cfg = n.cfg) : m.lazy = n.lazy :=
  congrArg (fun x => x.2.1) h

theorem Node.dataInput_of_cfg {m n : Node} (h : m.cfg = n.cfg) :
    m.dataInput = n.dataInput :=
  congrArg (fun x => x.2.2.1) h

theorem Node.streamStdout_of_cfg {m n : Node} (h : m.cfg = n.cfg) :
    m.streamStdout = n.streamStdout :=
  congrArg (fun x => x.2.2.2.1) h

theorem Node.streamStderr_of_cfg {m n : Node} (h : m.cfg = n.cfg) :
    m.streamStderr = n.streamStderr :=
  congrArg (fun x => x.2.2.2.2.1) h

theorem Node.stream_of_cfg {m n : Node} (h : m.cfg = n.cfg) :
    m.stream = n.stream :=
  congrArg (fun x => x.2.2.2.2.2.1) h

theorem Node.text_of_cfg {m n : Node} (h : m.cfg = n.cfg) : m.text = n.text :=
  congrArg (fun x => x.2.2.2.2.2.2.1) h

theorem Node.encoding_of_cfg {m n : Node} (h : m.cfg = n.cfg) :
    m.encoding = n.encoding :=
  congrArg (fun x => x.2.2.2.2.2.2.2.1) h

theorem Node.raiseFlag_of_cfg {m n : Node} (h : m.cfg = n.cfg) :
    m.raiseFlag = n.raiseFlag :=
  congrArg (fun x => x.2.2.2.2.2.2.2.2) h

/-- `convertPositional` distributes over appending token lists. -/
theorem convertPositional_append (g : String → List String) :
    ∀ (l1 l2 : List String),
    convertPositional g (l1 ++ l2) =
      convertPositional g l1 ++ convertPositional g l2 := by
  intro l1 l2
  induction l1 with
  | nil => rfl
  | cons a rest ih =>
      simp only [List.cons_append, convertPositional, List.append_eq, ih,
        List.append_assoc]

/-! ### Concrete fixtures -/

/-- A glob over an empty filesystem: no pattern matches anything. -/
def gNil : String → List String := fun _ => []

/-- A glob under which the pattern "p" matches the entries "b" and "a",
reported in that (filesystem-dependent, unsorted) order. -/
def gUnsorted : String → List String :=
  fun s => if s = "p" then ["b", "a"] else []

/-- Default process-wide configuration over an empty filesystem. -/
def env0 : Env := { alwaysRaise := false, alwaysStream := false, glob := gNil }

/-- An OS whose processes exit immediately with code 0. -/
def os0 : OS :=
  { exitCode := fun _ => 0, outData := fun _ => "out",
    errData := fun _ => "err", duration := fun _ => 0 }

/-- An OS whose processes run for 10 time units and exit with code 2. -/
def osSlow : OS :=
  { exitCode := fun _ => 2, outData := fun _ => "out",
    errData := fun _ => "err", duration := fun _ => 10 }

/-- The initial world: empty registry, pids issued from 1. -/
def w0 : World := { nextPid := 1, jobs := [], finished := [] }

/-- A freshly constructed descriptor node with default configuration. -/
def mkNode (args : List String) (lazy : Bool) : Node :=
  freshNode args lazy .noData Option.none Option.none Option.none true
    "UTF-8" Option.none

/-! ### Claim C5 -/

/-- C5: constructing or customizing a descriptor with a named option
first replaces underscores in the identifier with hyphens, and then
produces: `--name` for value True with a multi-character identifier,
`-n` for value True with a single-character identifier, `--no-name` for
value False, the two separate tokens `-n` and the value for a
single-character identifier with a non-boolean value, and the single
token `--name=value` for a multi-character identifier with a non-boolean
value. -/
theorem C5_kwarg_flag_conversion (g : String → List String) (k s : String) :
    ((hyphenate k).length = 1 →
      convert_args g [] [(k, .bool true)] = ["-" ++ hyphenate k]) ∧
    ((hyphenate k).length ≠ 1 →
      convert_args g [] [(k, .bool true)] = ["--" ++ hyphenate k]) ∧
    (convert_args g [] [(k, .bool false)] = ["--no-" ++ hyphenate k]) ∧
    ((hyphenate k).length = 1 →
      convert_args g [] [(k, .str s)] = ["-" ++ hyphenate k, s]) ∧
    ((hyphenate k).length ≠ 1 →
      convert_args g [] [(k, .str s)] = ["--" ++ hyphenate k ++ "=" ++ s]) := by
  refine ⟨?_, ?_, ?_, ?_, ?_⟩
  · intro h
    simp [convert_args, convertPositional, convertKw, h]
  · intro h
    simp [convert_args, convertPositional, convertKw, h]
  · simp [convert_args, convertPositional, convertKw]
  · intro h
    simp [convert_args, convertPositional, convertKw, h]
  · intro h
    simp [convert_args, convertPositional, convertKw, h]

/-- C5 witness: concrete conversions of each shape. -/
theorem C5_kwarg_flag_conversion_witness :
    convert_args gNil [] [("l", .bool true)] = ["-l"] ∧
    convert_args gNil [] [("escape", .bool true)] = ["--escape"] ∧
    convert_args gNil [] [("color", .bool false)] = ["--no-color"] ∧
    convert_args gNil [] [("I", .str "foo")] = ["-I", "foo"] ∧
    convert_args gNil [] [("sort_by", .str "size")] = ["--sort-by=size"] :=
  ⟨(C5_kwarg_flag_conversion gNil "l" "x").1 (by decide),
   (C5_kwarg_flag_conversion gNil "escape" "x").2.1 (by decide),
   (C5_kwarg_flag_conversion gNil "color" "x").2.2.1,
   (C5_kwarg_flag_conversion gNil "I" "foo").2.2.2.1 (by decide),
   (C5_kwarg_flag_conversion gNil "sort_by" "size").2.2.2.2 (by decide)⟩

/-! ### Claim C6 (corrected) -/

/-- C6 counterexample: the matches of a glob expansion are inserted in
the order the glob reports them, which the code never sorts.  Under a
filesystem whose glob reports the matches of "p" as ["b", "a"], the
resulting argv is ["b", "a"], not the sorted set ["a", "b"] the claim
requires. -/
theorem C6_glob_order_not_sorted :
    convert_args gUnsorted ["p"] [] = ["b", "a"] ∧
    convert_args gUnsorted ["p"] [] ≠ ["a", "b"] := by
  constructor
  · rfl
  · decide

/-- C6 (amended): each positional token is independently glob-expanded;
a token with at least one match is replaced by the matches exactly as the
glob reports them (in argument order, not re-sorted), and a token
matching nothing is kept literally. -/
theorem C6_glob_expansion (g : String → List String) (args : List String) :
    convert_args g args [] =
      args.flatMap (fun t => if g t = [] then [t] else g t) := by
  induction args with
  | nil => rfl
  | cons a rest ih =>
      simp only [convert_args, convertKw, List.append_nil] at ih ⊢
      rw [List.flatMap_cons, ← ih]
      simp only [convertPositional]
      cases hga : g a <;> simp [hga]

/-! ### Claim C9 (code bug) -/

/-- The concrete right-hand descriptor of the failing pipe operations. -/
def dCat : Desc := .base (mkNode ["cat"] false)

/-- C9: `_pipe` with operands matching none of the five recognized modes
is supposed to be a signature/type error, but the fall-through branches
return None: a non-iterable, non-descriptor left operand (e.g. the
integer 5) with a descriptor right operand silently produces None, and so
does a descriptor left operand with e.g. an integer right operand.  (The
function's final `return NotImplemented` branch, which would make Python
raise a TypeError, is unreachable from the pipe operators.) -/
theorem C9_unmatched_pipe_returns_none :
    pipeOp (α := Unit) env0 os0 Operand.other (.desc dCat) w0 =
      PipeOut.pyNone ∧
    pipeOp (α := Unit) env0 os0 (.desc dCat) Operand.other w0 =
      PipeOut.pyNone := by
  constructor
  · rfl
  · rfl

/-! ### Claim C1 -/

/-- C1: once a first full evaluation of a lazy descriptor has recorded a
return code (with captured stdout/stderr), every later access to the
result accessors returns exactly the recorded return code, stdout and
stderr, triggers no re-evaluation, and changes neither the descriptor nor
the world. -/
theorem C1_lazy_result_accessors_idempotent (env : Env) (os : OS)
    (d0 d : Desc) (v0 v : World) (so se : String)
    (hlazy : d0.head.lazy = true)
    (heval : evaluate env os d0 v0 = (d, v, Option.none))
    (hso : d.head.stdout = some so) (hse : d.head.stderr = some se) :
    ∃ rc : Int, d.head.returncode = some rc ∧
      evaluate env os d v = (d, v, Option.none) ∧
      returncodeProp env os d v = (some rc, d, v, Option.none) ∧
      stdoutProp env os d v = (some so, d, v, Option.none) ∧
      stderrProp env os d v = (some se, d, v, Option.none) := by
  have hcfg := evaluate_head_cfg env os d0 v0
  rw [heval] at hcfg
  have hlazy2 : d.head.lazy = true := by
    rw [Node.lazy_of_cfg hcfg, hlazy]
  have hrc : d.head.returncode.isSome = true := by
    have h1 := evaluate_success_returncode env os d0 v0 (by rw [heval])
    rw [heval] at h1
    exact h1
  obtain ⟨rc, hrc2⟩ := Option.isSome_iff_exists.mp hrc
  have hidem := evaluate_idem env os d v hlazy2 hrc
  refine ⟨rc, hrc2, hidem, ?_, ?_, ?_⟩
  · simp [returncodeProp, hidem, hrc2]
  · simp [stdoutProp, hidem, hso]
  · simp [stderrProp, hidem, hse]

/-- An already-evaluated lazy descriptor as a first evaluation leaves it. -/
def dDone : Desc :=
  .base { mkNode ["ls"] true with
    process := some 1, inputConsumed := true, stdoutPiped := true,
    stderrPiped := true, returncode := some 0, stdout := some "out",
    stderr := some "err" }

/-- C1 witness: the accessors of a concrete evaluated lazy descriptor. -/
theorem C1_lazy_result_accessors_idempotent_witness :
    ∃ rc : Int, dDone.head.returncode = some rc ∧
      evaluate env0 os0 dDone w0 = (dDone, w0, Option.none) ∧
      returncodeProp env0 os0 dDone w0 = (some rc, dDone, w0, Option.none) ∧
      stdoutProp env0 os0 dDone w0 = (some "out", dDone, w0, Option.none) ∧
      stderrProp env0 os0 dDone w0 = (some "err", dDone, w0, Option.none) :=
  C1_lazy_result_accessors_idempotent env0 os0 dDone dDone w0 w0 "out" "err"
    rfl (by decide) rfl rfl

/-! ### Claim C2 -/

/-- C2: a bounded wait whose timeout expires raises the distinguishable
TimeoutExpired error and leaves the descriptor and the world completely
unchanged — no return code recorded, no captured streams set, the
process not marked collected, the Job Registry entry still present — so
that a subsequent unbounded wait still succeeds (recording return codes
for the whole chain) and a terminate still succeeds. -/
theorem C2_timeout_leaves_state_unchanged (env : Env) (os : OS)
    (d : Desc) (w : World) (pid : Nat) (t : Nat)
    (hp : d.head.process = some pid)
    (hto : timesOut os w pid (some t) = true)
    (hs : d.allStarted = true) (hnr : d.noRaise env = true) :
    wait env os (some t) d w = (d, w, some Err.timeoutExpired) ∧
    (wait env os Option.none d w).2.2 = Option.none ∧
    ((wait env os Option.none d w).1).allReaped = true ∧
    terminateOp d = Except.ok () := by
  refine ⟨wait_timeout env os d w pid t hp hto, ?_, ?_, ?_⟩
  · exact (wait_ok env os d w hs hnr).1
  · exact (wait_ok env os d w hs hnr).2.1
  · simp [terminateOp, hp]

/-- A started (delayed) descriptor of a long-running process, registered
in the Job Registry under pid 1. -/
def dSlow : Desc :=
  .base { mkNode ["sleep", "10"] true with
    process := some 1, inputConsumed := true, stdoutPiped := true,
    stderrPiped := true }

/-- The world after `dSlow` was started: its entry is registered. -/
def wSlow : World := { nextPid := 2, jobs := [(1, ["sleep", "10"])], finished := [] }

/-- C2 witness: waiting 3 time units on a 10-unit process times out with
no state change; an unbounded retry and a terminate then succeed. -/
theorem C2_timeout_leaves_state_unchanged_witness :
    wait env0 osSlow (some 3) dSlow wSlow =
      (dSlow, wSlow, some Err.timeoutExpired) ∧
    (wait env0 osSlow Option.none dSlow wSlow).2.2 = Option.none ∧
    ((wait env0 osSlow Option.none dSlow wSlow).1).allReaped = true ∧
    terminateOp dSlow = Except.ok () :=
  C2_timeout_leaves_state_unchanged env0 osSlow dSlow wSlow 1 3 rfl
    (by decide) (by decide) (by decide)

/-! ### Claim C4 -/

@[simp] theorem mkDesc_head_args (args : List String) (lazy : Bool)
    (input : InputVal) (sso sse ss : Option Bool) (text : Bool)
    (enc : String) (rf : Option Bool) :
    (mkDesc args lazy input sso sse ss text enc rf).head.args = args := by
  cases input <;> rfl

@[simp] theorem mkDesc_head_lazy (args : List String) (lazy : Bool)
    (input : InputVal) (sso sse ss : Option Bool) (text : Bool)
    (enc : String) (rf : Option Bool) :
    (mkDesc args lazy input sso sse ss text enc rf).head.lazy = lazy := by
  cases input <;> rfl

@[simp] theorem mkDesc_head_streamStdout (args : List String) (lazy : Bool)
    (input : InputVal) (sso sse ss : Option Bool) (text : Bool)
    (enc : String) (rf : Option Bool) :
    (mkDesc args lazy input sso sse ss text enc rf).head.streamStdout = sso := by
  cases input <;> rfl

@[simp] theorem mkDesc_head_streamStderr (args : List String) (lazy : Bool)
    (input : InputVal) (sso sse ss : Option Bool) (text : Bool)
    (enc : String) (rf : Option Bool) :
    (mkDesc args lazy input sso sse ss text enc rf).head.streamStderr = sse := by
  cases input <;> rfl

@[simp] theorem mkDesc_head_stream (args : List String) (lazy : Bool)
    (input : InputVal) (sso sse ss : Option Bool) (text : Bool)
    (enc : String) (rf : Option Bool) :
    (mkDesc args lazy input sso sse ss text enc rf).head.stream = ss := by
  cases input <;> rfl

@[simp] theorem mkDesc_head_text (args : List String) (lazy : Bool)
    (input : InputVal) (sso sse ss : Option Bool) (text : Bool)
    (enc : String) (rf : Option Bool) :
    (mkDesc args lazy input sso sse ss text enc rf).head.text = text := by
  cases input <;> rfl

@[simp] theorem mkDesc_head_encoding (args : List String) (lazy : Bool)
    (input : InputVal) (sso sse ss : Option Bool) (text : Bool)
    (enc : String) (rf : Option Bool) :
    (mkDesc args lazy input sso sse ss text enc rf).head.encoding = enc := by
  cases input <;> rfl

@[simp] theorem mkDesc_head_raiseFlag (args : List String) (lazy : Bool)
    (input : InputVal) (sso sse ss : Option Bool) (text : Bool)
    (enc : String) (rf : Option Bool) :
    (mkDesc args lazy input sso sse ss text enc rf).head.raiseFlag = rf := by
  cases input <;> rfl

@[simp] theorem mkDesc_head_process (args : List String) (lazy : Bool)
    (input : InputVal) (sso sse ss : Option Bool) (text : Bool)
    (enc : String) (rf : Option Bool) :
    (mkDesc args lazy input sso sse ss text enc rf).head.process =
      Option.none := by
  cases input <;> rfl

@[simp] theorem mkDesc_head_returncode (args : List String) (lazy : Bool)
    (input : InputVal) (sso sse ss : Option Bool) (text : Bool)
    (enc : String) (rf : Option Bool) :
    (mkDesc args lazy input sso sse ss text enc rf).head.returncode =
      Option.none := by
  cases input <;> rfl

@[simp] theorem mkDesc_inputVal (args : List String) (lazy : Bool)
    (input : InputVal) (sso sse ss : Option Bool) (text : Bool)
    (enc : String) (rf : Option Bool) :
    (mkDesc args lazy input sso sse ss text enc rf).inputVal = input := by
  cases input <;> rfl

theorem start_head_some (env : Env) (stp : Bool) (d : Desc) (w : World)
    (hp : d.head.process = Option.none) :
    ((start_background_job env stp d w).1).head.process.isSome = true := by
  obtain ⟨p, h1, _⟩ := start_insert env stp d w hp
  simp [h1]

theorem feedF_head_process (env : Env) (fuel : Nat) (d : Desc) (w : World) :
    ((feedF env fuel d w).1).head.process = d.head.process := by
  have h := congrArg Node.process (feedF_head_unfeed env fuel d w)
  exact h

theorem wait_reaps_head (env : Env) (os : OS) (d : Desc) (w : World)
    (hp : d.head.process.isSome = true) :
    ((wait env os Option.none d w).1).head.returncode.isSome = true := by
  obtain ⟨pid, hp2⟩ := Option.isSome_iff_exists.mp hp
  have hto : timesOut os w pid Option.none = false := rfl
  have h1 : (waitAux env os (2 * d.depth + 1) true Option.none d w).1 =
      (waitAux env os (2 * d.depth) false Option.none
        (d.setHead (Node.reap os d.head pid)) (deregister w pid)).1 := by
    simp [waitAux, hp2, hto]
  rw [wait, h1, waitAux_false_head]
  have h3 : (d.setHead (Node.reap os d.head pid)).head =
      Node.reap os d.head pid := by cases d <;> simp
  rw [h3]
  simp [Node.reap]

/-- Evaluating a never-evaluated, never-started descriptor always records
a return code on it (even when an upstream error or the raise policy then
raises). -/
theorem evaluate_fresh_returncode (env : Env) (os : OS) (d : Desc) (w : World)
    (h0 : d.head.returncode = Option.none)
    (hp : d.head.process = Option.none) :
    ((evaluate env os d w).1).head.returncode.isSome = true := by
  have hguard : (d.head.returncode.isSome && d.head.lazy) = false := by
    simp [h0]
  simp only [evaluate, hguard, Bool.false_eq_true, if_false]
  apply wait_reaps_head
  simp only [feed_input, feedF_head_process]
  exact start_head_some env false d w hp

/-- Full specification of `__call__`: the returned copy's argv is the
parent's argv plus the converted new tokens/options, the copy is always
lazy, every override parameter left unset is carried forward from the
parent; with no tokens, no options and no overrides the copy is fully
evaluated before being returned, and otherwise nothing is started or
evaluated and the world is untouched. -/
theorem callOp_spec (env : Env) (os : OS) (args : List String)
    (kwargs : List (String × Val)) (o : Overrides) (d : Desc) (w : World)
    (hstable : convertPositional env.glob d.head.args = d.head.args) :
    ((callOp env os args kwargs o d w).1).head.args =
      d.head.args ++ convert_args env.glob args kwargs ∧
    ((callOp env os args kwargs o d w).1).head.lazy = true ∧
    (o.streamStdout = Option.none →
      ((callOp env os args kwargs o d w).1).head.streamStdout =
        d.head.streamStdout) ∧
    (o.streamStderr = Option.none →
      ((callOp env os args kwargs o d w).1).head.streamStderr =
        d.head.streamStderr) ∧
    (o.stream = Option.none →
      ((callOp env os args kwargs o d w).1).head.stream = d.head.stream) ∧
    (o.text = Option.none →
      ((callOp env os args kwargs o d w).1).head.text = d.head.text) ∧
    (o.encoding = Option.none →
      ((callOp env os args kwargs o d w).1).head.encoding = d.head.encoding) ∧
    (o.raiseF = Option.none →
      ((callOp env os args kwargs o d w).1).head.raiseFlag =
        d.head.raiseFlag) ∧
    (args = [] ∧ kwargs = [] ∧ o.unset →
      ((callOp env os args kwargs o d w).1).head.returncode.isSome = true) ∧
    (¬(args = [] ∧ kwargs = [] ∧ o.unset) →
      ((callOp env os args kwargs o d w).1).head.process = Option.none ∧
      ((callOp env os args kwargs o d w).1).head.returncode = Option.none ∧
      (o.input = Option.none →
        ((callOp env os args kwargs o d w).1).inputVal = d.inputVal) ∧
      (callOp env os args kwargs o d w).2.1 = w ∧
      (callOp env os args kwargs o d w).2.2 = Option.none) := by
  have hargs : convert_args env.glob (d.head.args ++ args) kwargs =
      d.head.args ++ convert_args env.glob args kwargs := by
    simp only [convert_args, convertPositional_append, hstable,
      List.append_assoc]
  by_cases hforce : (args.isEmpty && kwargs.isEmpty && decide o.unset) = true
  · have hforceP : args = [] ∧ kwargs = [] ∧ o.unset := by
      simp only [Bool.and_eq_true, List.isEmpty_iff, decide_eq_true_eq] at hforce
      exact ⟨hforce.1.1, hforce.1.2, hforce.2⟩
    have hcall : callOp env os args kwargs o d w =
        evaluate env os (mkDesc
          (convert_args env.glob (d.head.args ++ args) kwargs) true
          (o.input.getD d.inputVal)
          (match o.streamStdout with
           | Option.none => d.head.streamStdout
           | some b => some b)
          (match o.streamStderr with
           | Option.none => d.head.streamStderr
           | some b => some b)
          (match o.stream with
           | Option.none => d.head.stream
           | some b => some b)
          (o.text.getD d.head.text) (o.encoding.getD d.head.encoding)
          (match o.raiseF with
           | Option.none => d.head.raiseFlag
           | some b => some b)) w := by
      simp only [callOp, hforce, if_true]
    have hcfg := evaluate_head_cfg env os (mkDesc
      (convert_args env.glob (d.head.args ++ args) kwargs) true
      (o.input.getD d.inputVal)
      (match o.streamStdout with
       | Option.none => d.head.streamStdout
       | some b => some b)
      (match o.streamStderr with
       | Option.none => d.head.streamStderr
       | some b => some b)
      (match o.stream with
       | Option.none => d.head.stream
       | some b => some b)
      (o.text.getD d.head.text) (o.encoding.getD d.head.encoding)
      (match o.raiseF with
       | Option.none => d.head.raiseFlag
       | some b => some b)) w
    rw [← hcall] at hcfg
    refine ⟨?_, ?_, ?_, ?_, ?_, ?_, ?_, ?_, ?_, ?_⟩
    · rw [Node.args_of_cfg hcfg]
      simp [hargs]
    · rw [Node.lazy_of_cfg hcfg]
      simp
    · intro ho
      rw [Node.streamStdout_of_cfg hcfg]
      simp [ho]
    · intro ho
      rw [Node.streamStderr_of_cfg hcfg]
      simp [ho]
    · intro ho
      rw [Node.stream_of_cfg hcfg]
      simp [ho]
    · intro ho
      rw [Node.text_of_cfg hcfg]
      simp [ho]
    · intro ho
      rw [Node.encoding_of_cfg hcfg]
      simp [ho]
    · intro ho
      rw [Node.raiseFlag_of_cfg hcfg]
      simp [ho]
    · intro _
      rw [hcall]
      exact evaluate_fresh_returncode env os _ w (by simp) (by simp)
    · intro hcon
      exact absurd hforceP hcon
  · have hcall : callOp env os args kwargs o d w =
        (mkDesc (convert_args env.glob (d.head.args ++ args) kwargs) true
          (o.input.getD d.inputVal)
          (match o.streamStdout with
           | Option.none => d.head.streamStdout
           | some b => some b)
          (match o.streamStderr with
           | Option.none => d.head.streamStderr
           | some b => some b)
          (match o.stream with
           | Option.none => d.head.stream
           | some b => some b)
          (o.text.getD d.head.text) (o.encoding.getD d.head.encoding)
          (match o.raiseF with
           | Option.none => d.head.raiseFlag
           | some b => some b), w, Option.none) := by
      simp only [callOp, hforce, Bool.false_eq_true, if_false]
    refine ⟨?_, ?_, ?_, ?_, ?_, ?_, ?_, ?_, ?_, ?_⟩
    · rw [hcall]
      simp [hargs]
    · rw [hcall]
      simp
    · intro ho
      rw [hcall]
      simp [ho]
    · intro ho
      rw [hcall]
      simp [ho]
    · intro ho
      rw [hcall]
      simp [ho]
    · intro ho
      rw [hcall]
      simp [ho]
    · intro ho
      rw [hcall]
      simp [ho]
    · intro ho
      rw [hcall]
      simp [ho]
    · intro hcon
      exfalso
      apply hforce
      simp only [Bool.and_eq_true, List.isEmpty_iff, decide_eq_true_eq]
      exact ⟨⟨hcon.1, hcon.2.1⟩, hcon.2.2⟩
    · intro _
      rw [hcall]
      refine ⟨by simp, by simp, ?_, rfl, rfl⟩
      intro hi
      simp [hi]

/-- C4: call-style customization returns a copy whose argv is the
parent's argv plus the converted new tokens/options, always lazy, with
every override parameter left unset carried forward from the parent; when
invoked with no tokens, no options and no overrides the copy is fully
evaluated (a recorded return code) before being returned, and otherwise
nothing is started or evaluated and the world is untouched. -/
theorem C4_call_customization (env : Env) (os : OS) (args : List String)
    (kwargs : List (String × Val)) (o : Overrides) (d : Desc) (w : World)
    (hstable : convertPositional env.glob d.head.args = d.head.args) :
    ((callOp env os args kwargs o d w).1).head.args =
      d.head.args ++ convert_args env.glob args kwargs ∧
    ((callOp env os args kwargs o d w).1).head.lazy = true ∧
    (o.streamStdout = Option.none →
      ((callOp env os args kwargs o d w).1).head.streamStdout =
        d.head.streamStdout) ∧
    (o.streamStderr = Option.none →
      ((callOp env os args kwargs o d w).1).head.streamStderr =
        d.head.streamStderr) ∧
    (o.stream = Option.none →
      ((callOp env os args kwargs o d w).1).head.stream = d.head.stream) ∧
    (o.text = Option.none →
      ((callOp env os args kwargs o d w).1).head.text = d.head.text) ∧
    (o.encoding = Option.none →
      ((callOp env os args kwargs o d w).1).head.encoding = d.head.encoding) ∧
    (o.raiseF = Option.none →
      ((callOp env os args kwargs o d w).1).head.raiseFlag =
        d.head.raiseFlag) ∧
    (args = [] ∧ kwargs = [] ∧ o.unset →
      ((callOp env os args kwargs o d w).1).head.returncode.isSome = true) ∧
    (¬(args = [] ∧ kwargs = [] ∧ o.unset) →
      ((callOp env os args kwargs o d w).1).head.process = Option.none ∧
      ((callOp env os args kwargs o d w).1).head.returncode = Option.none ∧
      (o.input = Option.none →
        ((callOp env os args kwargs o d w).1).inputVal = d.inputVal) ∧
      (callOp env os args kwargs o d w).2.1 = w ∧
      (callOp env os args kwargs o d w).2.2 = Option.none) :=
  callOp_spec env os args kwargs o d w hstable

/-- A concrete non-lazy parent descriptor. -/
def dLs : Desc := .base (mkNode ["ls"] false)

/-- C4 witness: customizing a concrete descriptor with one token. -/
theorem C4_call_customization_witness :
    ((callOp env0 os0 ["-l"] [] {} dLs w0).1).head.args =
      dLs.head.args ++ convert_args env0.glob ["-l"] [] ∧
    ((callOp env0 os0 ["-l"] [] {} dLs w0).1).head.lazy = true ∧
    (Overrides.streamStdout {} = Option.none →
      ((callOp env0 os0 ["-l"] [] {} dLs w0).1).head.streamStdout =
        dLs.head.streamStdout) ∧
    (Overrides.streamStderr {} = Option.none →
      ((callOp env0 os0 ["-l"] [] {} dLs w0).1).head.streamStderr =
        dLs.head.streamStderr) ∧
    (Overrides.stream {} = Option.none →
      ((callOp env0 os0 ["-l"] [] {} dLs w0).1).head.stream =
        dLs.head.stream) ∧
    (Overrides.text {} = Option.none →
      ((callOp env0 os0 ["-l"] [] {} dLs w0).1).head.text = dLs.head.text) ∧
    (Overrides.encoding {} = Option.none →
      ((callOp env0 os0 ["-l"] [] {} dLs w0).1).head.encoding =
        dLs.head.encoding) ∧
    (Overrides.raiseF {} = Option.none →
      ((callOp env0 os0 ["-l"] [] {} dLs w0).1).head.raiseFlag =
        dLs.head.raiseFlag) ∧
    (["-l"] = ([] : List String) ∧ ([] : List (String × Val)) = [] ∧
        Overrides.unset {} →
      ((callOp env0 os0 ["-l"] [] {} dLs w0).1).head.returncode.isSome =
        true) ∧
    (¬(["-l"] = ([] : List String) ∧ ([] : List (String × Val)) = [] ∧
        Overrides.unset {}) →
      ((callOp env0 os0 ["-l"] [] {} dLs w0).1).head.process = Option.none ∧
      ((callOp env0 os0 ["-l"] [] {} dLs w0).1).head.returncode =
        Option.none ∧
      (Overrides.input {} = Option.none →
        ((callOp env0 os0 ["-l"] [] {} dLs w0).1).inputVal = dLs.inputVal) ∧
      (callOp env0 os0 ["-l"] [] {} dLs w0).2.1 = w0 ∧
      (callOp env0 os0 ["-l"] [] {} dLs w0).2.2 = Option.none) :=
  C4_call_customization env0 os0 ["-l"] [] {} dLs w0 (by decide)

/-! ### Claim C7 (corrected) -/

/-- A callable declaring no parameters at all. -/
def fEmpty : Func Nat := { params := [], run := fun _ => 7, returnsGen := false }

/-- C7 counterexample: the empty set is a subset of
{returncode, output, errors}, but a callable with no parameters is NOT
invoked — `_send_output_to_function` raises the signature error for it
(`if not parameters: raise error`). -/
theorem C7_empty_params_signature_error :
    send_output_to_function env0 os0 fEmpty dDone w0 =
      (dDone, w0, Except.error Err.typeError) := rfl

/-- C7 (amended): piping to an ordinary callable whose declared
parameter names form a NON-EMPTY subset of {returncode, output, errors}
(all positional-or-keyword) fully evaluates the descriptor and invokes
the callable by name with exactly the values it declared, returning its
return value directly; a callable with no parameters raises the
signature error, and so does any parameter-name set lying in neither
recognized subset. -/
theorem C7_function_pipe {α : Type} (env : Env) (os : OS) (f : Func α)
    (d : Desc) (w : World) (rc : Int) (so se : String)
    (hne : f.params ≠ [])
    (hkind : f.params.all (fun p => p.2 == PKind.posOrKw) = true)
    (hsub : (f.params.map Prod.fst).all
      (fun k => k == "returncode" || k == "output" || k == "errors") = true)
    (hlazy : d.head.lazy = true) (hrc : d.head.returncode = some rc)
    (hso : d.head.stdout = some so) (hse : d.head.stderr = some se) :
    send_output_to_function env os f d w =
      (d, w, Except.ok (FuncOutcome.ret (f.run
        ([("returncode", PyVal.int rc), ("output", PyVal.str so),
          ("errors", PyVal.str se)].filter
          (fun kv => (f.params.map Prod.fst).contains kv.1))))) ∧
    (∀ f' : Func α, f'.params = [] →
      send_output_to_function env os f' d w =
        (d, w, Except.error Err.typeError)) ∧
    (∀ f' : Func α,
      f'.params.all (fun p => p.2 == PKind.posOrKw) = true →
      (f'.params.map Prod.fst).all
        (fun k => k == "returncode" || k == "output" || k == "errors") = false →
      (f'.params.map Prod.fst).all
        (fun k => k == "stdout" || k == "stderr") = false →
      send_output_to_function env os f' d w =
        (d, w, Except.error Err.typeError)) := by
  have hidem := evaluate_idem env os d w hlazy (by simp [hrc])
  have hrcp : returncodeProp env os d w = (some rc, d, w, Option.none) := by
    simp [returncodeProp, hidem, hrc]
  have hsop : stdoutProp env os d w = (some so, d, w, Option.none) := by
    simp [stdoutProp, hidem, hso]
  have hsep : stderrProp env os d w = (some se, d, w, Option.none) := by
    simp [stderrProp, hidem, hse]
  refine ⟨?_, ?_, ?_⟩
  · have hempty : f.params.isEmpty = false := by
      cases hps : f.params with
      | nil => exact absurd hps hne
      | cons a l => rfl
    simp [send_output_to_function, hempty, hkind, hsub, hrcp, hsop, hsep]
  · intro f' hps
    simp [send_output_to_function, hps]
  · intro f' hkind' hs1 hs2
    by_cases hempty : f'.params.isEmpty
    · simp [send_output_to_function, hempty]
    · simp only [Bool.not_eq_true] at hempty
      simp [send_output_to_function, hempty, hkind', hs1, hs2]

/-- A callable declaring only the captured-stdout-text parameter. -/
def fOutput : Func Nat :=
  { params := [("output", .posOrKw)], run := fun kv => kv.length,
    returnsGen := false }

/-- C7 witness: a concrete callable over {output} applied to a concrete
evaluated descriptor, plus the two error shapes. -/
theorem C7_function_pipe_witness :
    send_output_to_function env0 os0 fOutput dDone w0 =
      (dDone, w0, Except.ok (FuncOutcome.ret (fOutput.run
        ([("returncode", PyVal.int 0), ("output", PyVal.str "out"),
          ("errors", PyVal.str "err")].filter
          (fun kv => (fOutput.params.map Prod.fst).contains kv.1))))) ∧
    (∀ f' : Func Nat, f'.params = [] →
      send_output_to_function env0 os0 f' dDone w0 =
        (dDone, w0, Except.error Err.typeError)) ∧
    (∀ f' : Func Nat,
      f'.params.all (fun p => p.2 == PKind.posOrKw) = true →
      (f'.params.map Prod.fst).all
        (fun k => k == "returncode" || k == "output" || k == "errors") = false →
      (f'.params.map Prod.fst).all
        (fun k => k == "stdout" || k == "stderr") = false →
      send_output_to_function env0 os0 f' dDone w0 =
        (dDone, w0, Except.error Err.typeError)) :=
  C7_function_pipe env0 os0 fOutput dDone w0 0 "out" "err" (by decide) rfl
    (by decide) rfl rfl rfl rfl

/-! ### Claim C8 (corrected) -/

/-- A lazy parent descriptor (as produced by any customization). -/
def dGitLazy : Desc := .base (mkNode ["git"] true)

/-- C8 counterexample: `__getattr__` passes `_lazy=self._lazy`, so the
descriptor obtained by attribute access from a lazy parent is itself
lazy, not non-lazy as the claim states for every descriptor. -/
theorem C8_getattr_preserves_laziness :
    ¬ ((getattrOp gNil "status" dGitLazy).head.lazy = false) := by decide

/-- C8 (amended): accessing an unknown attribute name returns a new
descriptor whose argv is the parent's argv with that name appended as
one extra token, whose laziness is INHERITED from the parent (so it is
non-lazy exactly when the parent is), whose input is a copy of the
parent's, and whose other configuration fields equal the parent's; it
agrees with call-style `tool(attr)` on argv and on every configuration
field except laziness, which the call always sets to true. -/
theorem C8_getattr_extension (env : Env) (os : OS) (attr : String)
    (d : Desc) (w : World)
    (hstable : convertPositional env.glob d.head.args = d.head.args)
    (hattr : env.glob attr = []) :
    (getattrOp env.glob attr d).head.args = d.head.args ++ [attr] ∧
    (getattrOp env.glob attr d).head.lazy = d.head.lazy ∧
    (getattrOp env.glob attr d).head.streamStdout = d.head.streamStdout ∧
    (getattrOp env.glob attr d).head.streamStderr = d.head.streamStderr ∧
    (getattrOp env.glob attr d).head.stream = d.head.stream ∧
    (getattrOp env.glob attr d).head.text = d.head.text ∧
    (getattrOp env.glob attr d).head.encoding = d.head.encoding ∧
    (getattrOp env.glob attr d).head.raiseFlag = d.head.raiseFlag ∧
    (getattrOp env.glob attr d).inputVal = copyInput env.glob d.inputVal ∧
    (getattrOp env.glob attr d).head.process = Option.none ∧
    ((callOp env os [attr] [] {} d w).1).head.args =
      (getattrOp env.glob attr d).head.args ∧
    ((callOp env os [attr] [] {} d w).1).head.lazy = true ∧
    ((callOp env os [attr] [] {} d w).1).head.streamStdout =
      d.head.streamStdout ∧
    ((callOp env os [attr] [] {} d w).1).head.streamStderr =
      d.head.streamStderr ∧
    ((callOp env os [attr] [] {} d w).1).head.stream = d.head.stream ∧
    ((callOp env os [attr] [] {} d w).1).head.text = d.head.text ∧
    ((callOp env os [attr] [] {} d w).1).head.encoding = d.head.encoding ∧
    ((callOp env os [attr] [] {} d w).1).head.raiseFlag = d.head.raiseFlag := by
  have hargs : convert_args env.glob (d.head.args ++ [attr]) [] =
      d.head.args ++ [attr] := by
    simp [convert_args, convertPositional_append, hstable, convertPositional,
      hattr, convertKw]
  have hc := callOp_spec env os [attr] [] {} d w hstable
  have hnf : ¬(([attr] : List String) = [] ∧ ([] : List (String × Val)) = [] ∧
      Overrides.unset {}) := by
    intro hcon
    exact List.cons_ne_nil attr [] hcon.1
  refine ⟨?_, ?_, ?_, ?_, ?_, ?_, ?_, ?_, ?_, ?_, ?_, ?_, ?_, ?_, ?_, ?_, ?_, ?_⟩
  · simp [getattrOp, hargs]
  · simp [getattrOp]
  · simp [getattrOp]
  · simp [getattrOp]
  · simp [getattrOp]
  · simp [getattrOp]
  · simp [getattrOp]
  · simp [getattrOp]
  · simp [getattrOp]
  · simp [getattrOp]
  · have h2 : (getattrOp env.glob attr d).head.args = d.head.args ++ [attr] := by
      simp [getattrOp, hargs]
    rw [hc.1, h2]
    simp [convert_args, convertPositional, hattr, convertKw]
  · exact hc.2.1
  · exact hc.2.2.1 rfl
  · exact hc.2.2.2.1 rfl
  · exact hc.2.2.2.2.1 rfl
  · exact hc.2.2.2.2.2.1 rfl
  · exact hc.2.2.2.2.2.2.1 rfl
  · exact hc.2.2.2.2.2.2.2.1 rfl

/-- A freshly constructed (non-lazy) parent descriptor. -/
def dGit : Desc := .base (mkNode ["git"] false)

/-- C8 witness: attribute-style extension of a concrete descriptor. -/
theorem C8_getattr_extension_witness :
    (getattrOp env0.glob "status" dGit).head.args =
      dGit.head.args ++ ["status"] ∧
    (getattrOp env0.glob "status" dGit).head.lazy = dGit.head.lazy ∧
    (getattrOp env0.glob "status" dGit).head.streamStdout =
      dGit.head.streamStdout ∧
    (getattrOp env0.glob "status" dGit).head.streamStderr =
      dGit.head.streamStderr ∧
    (getattrOp env0.glob "status" dGit).head.stream = dGit.head.stream ∧
    (getattrOp env0.glob "status" dGit).head.text = dGit.head.text ∧
    (getattrOp env0.glob "status" dGit).head.encoding = dGit.head.encoding ∧
    (getattrOp env0.glob "status" dGit).head.raiseFlag =
      dGit.head.raiseFlag ∧
    (getattrOp env0.glob "status" dGit).inputVal =
      copyInput env0.glob dGit.inputVal ∧
    (getattrOp env0.glob "status" dGit).head.process = Option.none ∧
    ((callOp env0 os0 ["status"] [] {} dGit w0).1).head.args =
      (getattrOp env0.glob "status" dGit).head.args ∧
    ((callOp env0 os0 ["status"] [] {} dGit w0).1).head.lazy = true ∧
    ((callOp env0 os0 ["status"] [] {} dGit w0).1).head.streamStdout =
      dGit.head.streamStdout ∧
    ((callOp env0 os0 ["status"] [] {} dGit w0).1).head.streamStderr =
      dGit.head.streamStderr ∧
    ((callOp env0 os0 ["status"] [] {} dGit w0).1).head.stream =
      dGit.head.stream ∧
    ((callOp env0 os0 ["status"] [] {} dGit w0).1).head.text =
      dGit.head.text ∧
    ((callOp env0 os0 ["status"] [] {} dGit w0).1).head.encoding =
      dGit.head.encoding ∧
    ((callOp env0 os0 ["status"] [] {} dGit w0).1).head.raiseFlag =
      dGit.head.raiseFlag :=
  C8_getattr_extension env0 os0 "status" dGit w0 (by decide) (by decide)

/-! ### Claim C10 -/

/-- C10: the copy operation used by `delay` returns a lazy descriptor
preserving the parent's argv, input source, stream flags, text mode and
encoding, but always leaves the raise-on-nonzero override unset; hence
waiting a delayed copy of a descriptor that carried an explicit
`_raise=True` override follows the process-wide default raise policy
(off here), and raises nothing even for a nonzero exit code. -/
theorem C10_copy_resets_raise (env : Env) (os : OS) (n : Node) (w : World)
    (hstable : convertPositional env.glob n.args = n.args)
    (hraise : n.raiseFlag = some true)
    (halways : env.alwaysRaise = false) :
    (copyDesc env.glob (.base n)).head.args = n.args ∧
    (copyDesc env.glob (.base n)).head.lazy = true ∧
    (copyDesc env.glob (.base n)).head.dataInput = n.dataInput ∧
    (copyDesc env.glob (.base n)).head.streamStdout = n.streamStdout ∧
    (copyDesc env.glob (.base n)).head.streamStderr = n.streamStderr ∧
    (copyDesc env.glob (.base n)).head.stream = n.stream ∧
    (copyDesc env.glob (.base n)).head.text = n.text ∧
    (copyDesc env.glob (.base n)).head.encoding = n.encoding ∧
    (copyDesc env.glob (.base n)).head.raiseFlag = Option.none ∧
    ((delay env (.base n) w).1).head.raiseFlag = Option.none ∧
    (wait env os Option.none (delay env (.base n) w).1
      (delay env (.base n) w).2).2.2 = Option.none := by
  have hcargs : convert_args env.glob n.args [] = n.args := by
    simp [convert_args, hstable, convertKw]
  have hdelay : delay env (.base n) w =
      (.base { freshNode n.args true n.dataInput n.streamStdout
          n.streamStderr n.stream n.text n.encoding Option.none with
          process := some w.nextPid,
          stdoutPiped := stdoutPipedOf env (freshNode n.args true n.dataInput
            n.streamStdout n.streamStderr n.stream n.text n.encoding
            Option.none),
          stderrPiped := stderrPipedOf env (freshNode n.args true n.dataInput
            n.streamStdout n.streamStderr n.stream n.text n.encoding
            Option.none),
          inputConsumed := true },
        { nextPid := w.nextPid + 1,
          jobs := w.jobs.filter (fun e => e.1 ≠ w.nextPid) ++
            [(w.nextPid, n.args)],
          finished := w.finished }) := by
    simp [delay, copyDesc, hcargs, start_background_job, freshNode, spawnNode,
      feedF]
  refine ⟨?_, ?_, ?_, ?_, ?_, ?_, ?_, ?_, ?_, ?_, ?_⟩
  · simp [copyDesc, hcargs, freshNode]
  · simp [copyDesc, freshNode]
  · simp [copyDesc, freshNode]
  · simp [copyDesc, freshNode]
  · simp [copyDesc, freshNode]
  · simp [copyDesc, freshNode]
  · simp [copyDesc, freshNode]
  · simp [copyDesc, freshNode]
  · simp [copyDesc, freshNode]
  · rw [hdelay]
    simp [freshNode]
  · rw [hdelay]
    apply (wait_ok env os _ _ ?_ ?_).1
    · simp [Desc.allStarted, freshNode]
    · simp [Desc.noRaise, freshNode, halways]

/-- A descriptor node carrying an explicit raise override. -/
def nRaise : Node := { mkNode ["false"] false with raiseFlag := some true }

/-- C10 witness: a delayed copy of a raise-override parent, run against
an OS where the process exits with code 2, still waits without raising. -/
theorem C10_copy_resets_raise_witness :
    (copyDesc env0.glob (.base nRaise)).head.args = nRaise.args ∧
    (copyDesc env0.glob (.base nRaise)).head.lazy = true ∧
    (copyDesc env0.glob (.base nRaise)).head.dataInput = nRaise.dataInput ∧
    (copyDesc env0.glob (.base nRaise)).head.streamStdout =
      nRaise.streamStdout ∧
    (copyDesc env0.glob (.base nRaise)).head.streamStderr =
      nRaise.streamStderr ∧
    (copyDesc env0.glob (.base nRaise)).head.stream = nRaise.stream ∧
    (copyDesc env0.glob (.base nRaise)).head.text = nRaise.text ∧
    (copyDesc env0.glob (.base nRaise)).head.encoding = nRaise.encoding ∧
    (copyDesc env0.glob (.base nRaise)).head.raiseFlag = Option.none ∧
    ((delay env0 (.base nRaise) w0).1).head.raiseFlag = Option.none ∧
    (wait env0 osSlow Option.none (delay env0 (.base nRaise) w0).1
      (delay env0 (.base nRaise) w0).2).2.2 = Option.none :=
  C10_copy_resets_raise env0 osSlow nRaise w0 (by decide) rfl rfl

/-! ### Claim C3 (corrected) -/

/-- The pipeline `PipePy("ls") | grep("x")`: a lazy tail whose upstream
is the non-lazy, module-level style descriptor. -/
def dChainNonLazy : Desc :=
  .piped (mkNode ["grep", "x"] true) (.base (mkNode ["ls"] false))

/-- C3 counterexample: evaluating (and hence fully waiting) the pipeline
whose upstream is non-lazy completes without error, yet the upstream's
FIRST registry entry (pid 1) survives: the feed step re-started the
non-lazy upstream under a new pid (3), and the wait only removed the
entries keyed by the current pids (2 and 3).  A descriptor of the chain
therefore remains registered after wait on the tail, contradicting the
claim. -/
theorem C3_nonlazy_upstream_entry_leak :
    (evaluate env0 os0 dChainNonLazy w0).2.2 = Option.none ∧
    (evaluate env0 os0 dChainNonLazy w0).2.1.jobs = [(1, ["ls"])] := by
  constructor
  · rfl
  · rfl

/-- C3 (amended): Start on an unstarted descriptor inserts exactly one
Job Registry entry, keyed by a pid the registry never held before and
mapping to the descriptor's argv; and for a pipeline whose chain members
are all lazy (as produced by customization/piping) and all unstarted,
fully evaluating the tail completes the whole chain — every chain member
has a recorded return code — and removes every registry entry the
pipeline created, so only pre-existing entries remain.  (For a non-lazy
upstream the feed step starts it a second time and its first entry
survives; see the counterexample.) -/
theorem C3_registry_lifecycle (env : Env) (os : OS) (d dP : Desc)
    (w wP : World)
    (hwf : w.wf) (h0 : d.head.process = Option.none)
    (hPfresh : dP.allFresh = true) (hPlazy : dP.allLazy = true)
    (hPnr : dP.noRaise env = true) :
    (∃ p, ((start_background_job env false d w).1).head.process = some p ∧
       p ∉ w.jobPids ∧
       List.count p (((start_background_job env false d w).2).jobPids) = 1 ∧
       (p, d.head.args) ∈ ((start_background_job env false d w).2).jobs) ∧
    ((evaluate env os dP wP).2.2 = Option.none ∧
     ((evaluate env os dP wP).1).allReaped = true ∧
     ∀ p ∈ ((evaluate env os dP wP).2.1).jobPids, p ∈ wP.jobPids) := by
  constructor
  · obtain ⟨p, h1, h2, h3, h4⟩ := start_insert env false d w h0
    refine ⟨p, h1, ?_, h3, h4⟩
    intro hmem
    have := hwf p hmem
    omega
  · have hguard : (dP.head.returncode.isSome && dP.head.lazy) = false := by
      simp [(Desc.fresh_head hPfresh).2]
    have hs1 : ((start_background_job env false dP wP).1).allStarted = true :=
      start_fresh_started env false dP wP hPfresh
    have hunsp := start_unspawn env false dP wP
    have hl1 : ((start_background_job env false dP wP).1).allLazy = true := by
      unfold Desc.allLazy at hPlazy ⊢
      rw [nodesAll_transfer (f := Node.unspawn) (q := fun n => n.lazy)
        (fun _ => rfl) hunsp]
      exact hPlazy
    have hnr1 : Desc.noRaise env ((start_background_job env false dP wP).1) =
        true := by
      unfold Desc.noRaise at hPnr ⊢
      rw [nodesAll_transfer (f := Node.unspawn)
        (q := fun n => (n.raiseFlag.getD env.alwaysRaise) == false)
        (fun _ => rfl) hunsp]
      exact hPnr
    have hfeed := feedF_lazyStarted env
      ((start_background_job env false dP wP).1).depth
      ((start_background_job env false dP wP).1)
      ((start_background_job env false dP wP).2) hs1 hl1
    have hs2 : ((feed_input env (start_background_job env false dP wP).1
        (start_background_job env false dP wP).2).1).allStarted = true := by
      unfold Desc.allStarted at hs1 ⊢
      unfold feed_input
      rw [nodesAll_transfer (f := Node.unfeed) (q := fun n => n.process.isSome)
        (fun _ => rfl) hfeed.2]
      exact hs1
    have hnr2 : Desc.noRaise env ((feed_input env
        (start_background_job env false dP wP).1
        (start_background_job env false dP wP).2).1) = true := by
      unfold Desc.noRaise at hnr1 ⊢
      unfold feed_input
      rw [nodesAll_transfer (f := Node.unfeed)
        (q := fun n => (n.raiseFlag.getD env.alwaysRaise) == false)
        (fun _ => rfl) hfeed.2]
      exact hnr1
    have hchain : ((feed_input env (start_background_job env false dP wP).1
        (start_background_job env false dP wP).2).1).chainPids =
        ((start_background_job env false dP wP).1).chainPids := by
      unfold Desc.chainPids
      unfold feed_input
      exact nodesFilterMap_transfer (f := Node.unfeed)
        (q := fun n => n.process) (fun _ => rfl) hfeed.2
    have hw2 : (feed_input env (start_background_job env false dP wP).1
        (start_background_job env false dP wP).2).2 =
        (start_background_job env false dP wP).2 := by
      unfold feed_input
      exact hfeed.1
    have hwok := wait_ok env os
      ((feed_input env (start_background_job env false dP wP).1
        (start_background_job env false dP wP).2).1)
      ((feed_input env (start_background_job env false dP wP).1
        (start_background_job env false dP wP).2).2) hs2 hnr2
    simp only [evaluate, hguard, Bool.false_eq_true, if_false]
    refine ⟨hwok.1, hwok.2.1, ?_⟩
    intro p hp
    have h5 := hwok.2.2 p hp
    have h6 : p ∈ ((start_background_job env false dP wP).2).jobPids := by
      rw [← hw2]
      exact h5.1
    obtain ⟨e, he, hep⟩ := List.mem_map.mp h6
    have h7 := start_jobs_chain env false dP wP e he
    rcases h7 with h7 | h7
    · rw [← hep]
      exact List.mem_map.mpr ⟨e, h7, rfl⟩
    · exfalso
      apply h5.2
      rw [hchain, hep] at *
      rw [← hep] at h7 ⊢
      rw [hchain]
      exact h7

/-- A fresh all-lazy two-stage pipeline (as piping lazy copies builds). -/
def dChainLazy : Desc :=
  .piped (mkNode ["grep", "x"] true) (.base (mkNode ["ls"] true))

/-- A fresh unstarted single descriptor for the start clause. -/
def dFresh : Desc := .base (mkNode ["ls"] false)

/-- C3 witness: the start clause on a fresh descriptor and the full
lifecycle on a concrete all-lazy pipeline. -/
theorem C3_registry_lifecycle_witness :
    (∃ p, ((start_background_job env0 false dFresh w0).1).head.process =
        some p ∧
       p ∉ w0.jobPids ∧
       List.count p (((start_background_job env0 false dFresh w0).2).jobPids)
         = 1 ∧
       (p, dFresh.head.args) ∈
         ((start_background_job env0 false dFresh w0).2).jobs) ∧
    ((evaluate env0 os0 dChainLazy w0).2.2 = Option.none ∧
     ((evaluate env0 os0 dChainLazy w0).1).allReaped = true ∧
     ∀ p ∈ ((evaluate env0 os0 dChainLazy w0).2.1).jobPids, p ∈ w0.jobPids) :=
  C3_registry_lifecycle env0 os0 dFresh dChainLazy w0 w0
    (by intro p hp; simp [w0, World.jobPids] at hp) rfl (by decide) (by decide)
    (by decide)

end PipePy




